import Mathlib

/-!
Verification development for the `sql_rs` storage engine.

This file gives a shallow embedding of the on-disk storage engine of the
repository: the slotted B+tree page (`src/backend/page.rs`), the pager
(`src/backend/pager.rs`), the cursor (`src/backend/cursor.rs`) and the
table/database facade (`src/backend/table.rs`, `src/backend/database.rs`).

Conventions of the embedding:
 - machine integers (`u8`, `u16`, `u32`, `u64`, `usize`) are `Nat`, with
   explicit `% 2 ^ w` at the points where the Rust code casts or where byte
   encodings truncate;
 - a byte buffer of length `n` (a page's 4096-byte array, a cell image, a
   record payload) is a `Bytes` value: its length together with the packed
   natural number `Σ byteᵢ * 256 ^ i` (byte 0 is the lowest offset); slicing
   and concatenation are the corresponding arithmetic, so `s.take n` is
   `s.val % 256 ^ n` and `s.drop n` is `s.val / 256 ^ n`;
 - Rust code that can panic (slice indexing out of range, `usize` subtraction
   underflow, `copy_from_slice` length mismatch, `Vec::remove` out of range,
   `unwrap` on `None`) is modelled by an explicit `crash` / `none` outcome,
   distinct from returning an `Err` value;
 - Rust's uninitialised page buffers (`Page::create_uninit_page_bytes` builds
   the 4096-byte array from `MaybeUninit` without initialising it) are
   modelled by passing the arbitrary initial contents of the buffer as an
   explicit argument (`uninit`), so theorems quantify over them and concrete
   executions choose them.
-/

set_option maxRecDepth 40000
set_option exponentiation.threshold 100000
set_option maxHeartbeats 4000000

instance {ε α : Type} [DecidableEq ε] [DecidableEq α] : DecidableEq (Except ε α) := fun a b =>
  match a, b with
  | .ok x, .ok y =>
    if h : x = y then .isTrue (by rw [h]) else .isFalse (by intro hc; cases hc; exact h rfl)
  | .error x, .error y =>
    if h : x = y then .isTrue (by rw [h]) else .isFalse (by intro hc; cases hc; exact h rfl)
  | .ok _, .error _ => .isFalse (by intro hc; cases hc)
  | .error _, .ok _ => .isFalse (by intro hc; cases hc)

/-- `PAGE_SIZE` from `page.rs`. -/
def PAGE_SIZE : Nat := 4096

/-- `TABLE_MAX_PAGES` from `pager.rs`. -/
def TABLE_MAX_PAGES : Nat := 100

/-- `INVALID_PAGE_NUM = TABLE_MAX_PAGES as u32` from `page.rs`. -/
def INVALID_PAGE_NUM : Nat := 100

/-- `PAGE_HEADER_SIZE = size_of::<PageHeader>()`: 12 bytes on disk
(type 1 + first_free_block 2 + num_cells 2 + cells_start 2 + frag 1 +
right_pointer 4). -/
def PAGE_HEADER_SIZE : Nat := 12

/-- The weight of byte position `n`: `256 ^ n`. -/
def bpow (n : Nat) : Nat := 2 ^ (8 * n)

/-- A byte string: its length and the packed value `Σ byteᵢ * 256 ^ i`. -/
structure Bytes where
  len : Nat
  val : Nat
  deriving Repr, DecidableEq

/-- The packed value is in range for the length (every `Bytes` built by the
operations below satisfies this). -/
def Bytes.WF (s : Bytes) : Prop := s.val < bpow s.len

instance : DecidablePred Bytes.WF := fun s => by
  unfold Bytes.WF; infer_instance

/-- The empty byte string. -/
def Bytes.empty : Bytes := ⟨0, 0⟩

/-- A one-byte string. -/
def Bytes.byte (b : Nat) : Bytes := ⟨1, b % 256⟩

/-- Byte at offset `i` (0 when past the end). -/
def Bytes.get (s : Bytes) (i : Nat) : Nat := s.val / bpow i % 256

/-- The first `n` bytes (all of them when `n` exceeds the length). -/
def Bytes.take (s : Bytes) (n : Nat) : Bytes := ⟨min n s.len, s.val % bpow (min n s.len)⟩

/-- Everything after the first `n` bytes. -/
def Bytes.drop (s : Bytes) (n : Nat) : Bytes := ⟨s.len - n, s.val / bpow n⟩

/-- Concatenation (the left operand is clipped to its declared length). -/
def Bytes.append (a b : Bytes) : Bytes :=
  ⟨a.len + b.len, a.val % bpow a.len + (b.val % bpow b.len) * bpow a.len⟩

/-- `n` copies of the byte `b`. -/
def Bytes.replicate (n b : Nat) : Bytes := ⟨n, (b % 256) * ((bpow n - 1) / 255)⟩

/-- Packed value of the big-endian encoding of `v` into `w` bytes: the most
significant byte sits at offset 0. -/
def beVal : Nat → Nat → Nat
  | 0, _ => 0
  | w + 1, v => beVal w (v / 256) + (v % 256) * bpow w

/-- Big-endian encoding of `v` into `w` bytes (the `to_be_bytes` calls of the
source); values at least `256 ^ w` are truncated, matching the integer width
of the Rust field. -/
def beBytes (w v : Nat) : Bytes := ⟨w, beVal w v⟩

/-- Big-endian read of the first `n` bytes of packed value `v` (the
`from_be_bytes` calls of the source). -/
def readBEAux : Nat → Nat → Nat
  | 0, _ => 0
  | n + 1, v => readBEAux n (v % bpow n) * 256 + v / bpow n % 256

/-- Big-endian read of a whole byte string. -/
def readBE (s : Bytes) : Nat := readBEAux s.len s.val

/-- Overwrite `dest` starting at `pos` with `src`
(`dest[pos..pos+src.len()].copy_from_slice(src)`); callers are responsible
for the Rust bounds checks, which are modelled at the call sites. -/
def writeBytes (dest : Bytes) (pos : Nat) (src : Bytes) : Bytes :=
  ((dest.take pos).append src).append (dest.drop (pos + src.len))

/-- The error enumeration `PageError` from `page.rs` (payload-free where the
payload is only carried for display). -/
inductive PageError where
  | CorruptData
  | DeleteFromEmpty
  | DuplicateKey (k : Nat)
  | PageFull
  | InsertError
  | UpdateNotSameSize
  | UpdateNotSameKey (k : Nat)
  | InvalidPageType (b : Nat)
  | HeaderReadError
  | CellPtrArrayReadError
  | ReaderError
  | EndOfSliceWhileDeserializing
  | CannotGetFirstOrLastKey
  deriving Repr, DecidableEq

/-- `PageType` from `page.rs`: `Leaf = 0x0d`, `Interior = 0x05`. -/
inductive PageType where
  | Leaf
  | Interior
  deriving Repr, DecidableEq

/-- The on-disk tag of a page type. -/
def PageType.tag : PageType → Nat
  | .Leaf => 0x0d
  | .Interior => 0x05

/-- `TryFrom<&u8> for PageType`. -/
def PageType.try_from (b : Nat) : Except PageError PageType :=
  if b = 0x0d then .ok .Leaf
  else if b = 0x05 then .ok .Interior
  else .error (.InvalidPageType b)

/-- Outcome of a Rust method that takes `&mut self` and returns
`Result<(), PageError>`: either a panic, or an error together with the
(partially) mutated receiver, or the mutated receiver on success. -/
inductive MutRes (α : Type) where
  | crash
  | err (state : α) (e : PageError)
  | ok (state : α)
  deriving Repr, DecidableEq

/-- Modelled from the spec: the cell record of `db_cell.rs` (the version of
`DBCell` used by `page.rs` — a struct with fields `payload_size`, `key`,
`payload`, `left_child` — is not present under `src/`; the checked-in
`db_cell.rs` is a stale revision with a different interface, so the codec is
modelled from the spec, §3 "Cell" and §4.1). -/
structure DBCell where
  payload_size : Nat
  key : Nat
  payload : Bytes
  left_child : Nat
  deriving Repr, DecidableEq

/-- Modelled from the spec: `DBCell::new(key, payload, left_child)` — the
payload size is the number of bytes in `payload` (§3); an absent
`left_child` is `INVALID_PAGE_NUM` (§4.2 "insert", `page.rs` doc comment on
`Page::insert`). -/
def DBCell.new (key : Nat) (payload : Bytes) (left_child : Option Nat) : DBCell :=
  { payload_size := payload.len
    key := key
    payload := payload
    left_child := left_child.getD INVALID_PAGE_NUM }

/-- Modelled from the spec: encoding a cell produces
`2 + 8 + len(payload) + 4` bytes, big-endian fixed-width prefix fields
(§3, §4.1, §6 "Constants"). -/
def DBCell.to_bytes (c : DBCell) : Bytes :=
  (beBytes 2 c.payload_size).append
    ((beBytes 8 c.key).append (c.payload.append (beBytes 4 c.left_child)))

/-- Modelled from the spec: decoding rejects inputs shorter than 14 bytes and
reads `payload_size`, `key`, `payload`, `left_child` in order (§3, §4.1);
the `Err(())` of the source's `TryFrom` is `Except Unit`. -/
def DBCell.try_from_bytes (bytes : Bytes) : Except Unit DBCell :=
  if bytes.len < 14 then .error ()
  else if 10 + readBE (bytes.take 2) ≤ bytes.len then
    if 10 + readBE (bytes.take 2) + 4 ≤ bytes.len then
      .ok { payload_size := readBE (bytes.take 2)
            key := readBE ((bytes.drop 2).take 8)
            payload := (bytes.drop 10).take (readBE (bytes.take 2))
            left_child := readBE ((bytes.drop (10 + readBE (bytes.take 2))).take 4) }
    else .error ()
  else .error ()

/-- Modelled from the spec: `DBCell::id_from_slice` extracts just the key from
the first 10 bytes of a cell (§4.1); fails on shorter input. -/
def DBCell.id_from_slice (bytes : Bytes) : Except Unit Nat :=
  if bytes.len < 10 then .error ()
  else .ok (readBE ((bytes.drop 2).take 8))

/-- The in-memory mirror of the page header (`PageHeader` in `page.rs`). -/
structure PageHeader where
  page_type : PageType
  first_free_block : Nat
  num_cells : Nat
  cells_start : Nat
  fragmented_free_bytes : Nat
  right_pointer : Nat
  deriving Repr, DecidableEq

/-- `Page` from `page.rs`: the header mirror, the 4096-byte buffer and the
in-memory cell pointer array. -/
structure Page where
  header : PageHeader
  data : Bytes
  cell_pointer_array : List Nat
  deriving Repr, DecidableEq

/-- `PageHeader::set_page_type`: store the field and write byte 0. -/
def Page.set_page_type (p : Page) (val : PageType) : Page :=
  { p with header := { p.header with page_type := val }
           data := writeBytes p.data 0 (Bytes.byte val.tag) }

/-- `PageHeader::set_num_cells`: store the field and write bytes 3..5
big-endian. -/
def Page.set_num_cells (p : Page) (val : Nat) : Page :=
  { p with header := { p.header with num_cells := val }
           data := writeBytes p.data 3 (beBytes 2 val) }

/-- `PageHeader::set_cells_start`: store the field and write bytes 5..7
big-endian. -/
def Page.set_cells_start (p : Page) (val : Nat) : Page :=
  { p with header := { p.header with cells_start := val }
           data := writeBytes p.data 5 (beBytes 2 val) }

/-- `PageHeader::set_right_pointer`: store the field and write bytes 8..12
big-endian. -/
def Page.set_right_pointer (p : Page) (val : Nat) : Page :=
  { p with header := { p.header with right_pointer := val }
           data := writeBytes p.data 8 (beBytes 4 val) }

/-- `Page::new(page_type)`: an empty page over an uninitialised buffer
(`uninit` is the arbitrary prior content of the buffer); sets the type tag,
`cells_start = PAGE_SIZE` and `right_pointer = INVALID_PAGE_NUM`, with the
header mirror otherwise `Default` (zero). -/
def Page.new (page_type : PageType) (uninit : Bytes) : Page :=
  let base : Page :=
    { header := { page_type := .Leaf, first_free_block := 0, num_cells := 0
                  cells_start := 0, fragmented_free_bytes := 0, right_pointer := 0 }
      data := uninit
      cell_pointer_array := [] }
  ((base.set_page_type page_type).set_cells_start PAGE_SIZE).set_right_pointer INVALID_PAGE_NUM

/-- `CellPtrArray::write_u16_in_bytes`: write `value` at entry `index` of the
region as a little-endian `u16` (low byte at the lower offset); `none` models
the panic of the two direct byte-index assignments when they fall outside the
region. -/
def CellPtrArray.write_u16_in_bytes (bytes : Bytes) (index : Nat) (value : Nat) : Option Bytes :=
  if index * 2 + 1 < bytes.len then
    some (writeBytes bytes (index * 2) ((Bytes.byte (value % 256)).append (Bytes.byte (value / 256 % 256))))
  else none

/-- Helper for `CellPtrArray::read_from_bytes`: read `count` consecutive
2-byte chunks with `u16::from_be_bytes`. -/
def chunksBE : Nat → Bytes → List Nat
  | 0, _ => []
  | n + 1, s => readBE (s.take 2) :: chunksBE n (s.drop 2)

/-- `CellPtrArray::read_from_bytes`: take the first `num_cells * 2` bytes of
the region (error if the region is shorter) and parse each entry with
`u16::from_be_bytes`. -/
def CellPtrArray.read_from_bytes (num_cells : Nat) (region : Bytes) : Except PageError (List Nat) :=
  if num_cells * 2 > region.len then .error .CellPtrArrayReadError
  else .ok (chunksBE num_cells (region.take (num_cells * 2)))

/-- Loop of `CellPtrArray::write_pointer_array`: write the entries one after
another with `write_u16_in_bytes`. -/
def wpaGo (region : Bytes) (idx : Nat) : List Nat → Option Bytes
  | [] => some region
  | v :: rest =>
    match CellPtrArray.write_u16_in_bytes region idx v with
    | none => none
    | some r => wpaGo r (idx + 1) rest

/-- `CellPtrArray::write_pointer_array` applied through the page: rewrite the
pointer-array region (`data[PAGE_HEADER_SIZE..]`) from `arr` and store `arr`
as the in-memory array. -/
def Page.write_ptr_array (p : Page) (arr : List Nat) : Option Page :=
  match wpaGo (p.data.drop PAGE_HEADER_SIZE) 0 arr with
  | none => none
  | some region =>
    some { p with data := (p.data.take PAGE_HEADER_SIZE).append region
                  cell_pointer_array := arr }

/-- Loop of `Page::get_keys`: dereference each cell pointer
(`&self.data[cell_ptr as usize..]` — a panicking index when the pointer lies
beyond the buffer) and extract its key; the `collect` of the source stops at
the first error. -/
def keysFromPtrs (data : Bytes) : List Nat → Option (Except Unit (List Nat))
  | [] => some (.ok [])
  | ptr :: rest =>
    if ptr > data.len then none
    else
      match DBCell.id_from_slice (data.drop ptr) with
      | .error _ => some (.error ())
      | .ok k =>
        match keysFromPtrs data rest with
        | none => none
        | some (.error e) => some (.error e)
        | some (.ok ks) => some (.ok (k :: ks))

/-- `Page::get_keys`: the keys of all cells in cell-pointer order; a failed
key extraction is `CorruptData`. -/
def Page.get_keys (p : Page) : Option (Except PageError (List Nat)) :=
  match keysFromPtrs p.data p.cell_pointer_array with
  | none => none
  | some (.error _) => some (.error .CorruptData)
  | some (.ok ks) => some (.ok ks)

/-- Loop of `partition_point` (Rust `slice::partition_point`, a binary
search); `fuel` bounds the iteration count and is instantiated with the
initial size, which the loop never exceeds. -/
def ppAux (keys : List Nat) (pred : Nat → Bool) : Nat → Nat → Nat → Nat
  | 0, left, _ => left
  | fuel + 1, left, size =>
    if size = 0 then left
    else
      let mid := left + size / 2
      if pred (keys.getD mid 0) then ppAux keys pred fuel (mid + 1) (size - size / 2 - 1)
      else ppAux keys pred fuel left (size / 2)

/-- Rust `slice::partition_point`. -/
def partitionPoint (keys : List Nat) (pred : Nat → Bool) : Nat :=
  ppAux keys pred keys.length 0 keys.length

/-- `Page::find_partition(new_key)`: the partition point of the sorted key
list, together with the key currently at that index (`none` past the end). -/
def Page.find_partition (p : Page) (new_key : Nat) : Option (Except PageError (Nat × Option Nat)) :=
  match p.get_keys with
  | none => none
  | some (.error e) => some (.error e)
  | some (.ok keys) =>
    if partitionPoint keys (fun k => decide (k < new_key)) ≥ keys.length then
      some (.ok (keys.length, none))
    else
      some (.ok (partitionPoint keys (fun k => decide (k < new_key)),
        some (keys.getD (partitionPoint keys (fun k => decide (k < new_key))) 0)))

/-- `Page::get_first_key`. -/
def Page.get_first_key (p : Page) : Option (Except PageError Nat) :=
  if p.cell_pointer_array.length = 0 then some (.error .CannotGetFirstOrLastKey)
  else
    let ptr := p.cell_pointer_array.getD 0 0
    if ptr > p.data.len then none
    else
      match DBCell.id_from_slice (p.data.drop ptr) with
      | .error _ => some (.error .CorruptData)
      | .ok k => some (.ok k)

/-- `Page::get_last_key`. -/
def Page.get_last_key (p : Page) : Option (Except PageError Nat) :=
  if p.cell_pointer_array.length = 0 then some (.error .CannotGetFirstOrLastKey)
  else
    let ptr := p.cell_pointer_array.getD (p.cell_pointer_array.length - 1) 0
    if ptr > p.data.len then none
    else
      match DBCell.id_from_slice (p.data.drop ptr) with
      | .error _ => some (.error .CorruptData)
      | .ok k => some (.ok k)

/-- `Page::get_next_page_pointer(key)`: run `find_partition`; on `none`
return `right_pointer`, otherwise decode a cell at byte offset
`partition` of the page buffer (`self.data[partition..]` — note: the
partition index itself is used as a byte offset) and return its
`left_child`. -/
def Page.get_next_page_pointer (p : Page) (key : Nat) : Option (Except PageError Nat) :=
  match p.find_partition key with
  | none => none
  | some (.error e) => some (.error e)
  | some (.ok (partition, partition_key)) =>
    if partition_key = none then some (.ok p.header.right_pointer)
    else
      if partition > p.data.len then none
      else
        match DBCell.try_from_bytes (p.data.drop partition) with
        | .error _ => some (.error .CorruptData)
        | .ok next_page_cell => some (.ok next_page_cell.left_child)

/-- Tail of `Page::insert` after the cell bytes are in place and the header
fields are updated: insert the new offset into the cell-pointer array at
`partition` (`Vec::insert` panics past the end) and rewrite the
pointer-array region. -/
def Page.insert_finish (p3 : Page) (partition insert_position : Nat) : MutRes Page :=
  if partition > p3.cell_pointer_array.length then .crash
  else
    match p3.write_ptr_array (p3.cell_pointer_array.insertIdx partition insert_position) with
    | none => .crash
    | some p4 => .ok p4

/-- `Page::insert(key, payload, left_child)`. -/
def Page.insert (p : Page) (key : Nat) (payload : Bytes) (left_child : Option Nat) : MutRes Page :=
  match p.find_partition key with
  | none => .crash
  | some (.error e) => .err p e
  | some (.ok (partition, partition_key_opt)) =>
    if partition_key_opt = some key then .err p (.DuplicateKey key)
    else
      let cell_bytes := (DBCell.new key payload left_child).to_bytes
      let old_cells_start := p.header.cells_start
      -- usize subtraction: underflow panics
      if cell_bytes.len > old_cells_start then .crash
      else
        let insert_position := old_cells_start - cell_bytes.len
        let end_of_ptr_array_after_insert :=
          PAGE_HEADER_SIZE + (p.header.num_cells + 1) * 2
        if insert_position ≤ end_of_ptr_array_after_insert then
          .err (p.set_cells_start 0) .PageFull
        else
          -- slice bound of data[insert_position..old_cells_start]
          if old_cells_start > p.data.len then .crash
          else
            Page.insert_finish
              ((({ p with data := writeBytes p.data insert_position cell_bytes }
                : Page).set_cells_start insert_position).set_num_cells
                (p.header.num_cells + 1))
              partition insert_position

/-- `Page::delete(cell_ptr_pos)`. -/
def Page.delete (p : Page) (cell_ptr_pos : Nat) : MutRes Page :=
  if p.cell_pointer_array.isEmpty then .err p .DeleteFromEmpty
  else
    let lastPtr := p.cell_pointer_array.getD (p.cell_pointer_array.length - 1) 0
    -- `cell_ptr_pos as u16` is compared against the *value* of the last pointer
    let p1 :=
      if cell_ptr_pos % 65536 = lastPtr then
        let new_cells_start :=
          if p.cell_pointer_array.length ≤ 2 then PAGE_SIZE
          else p.cell_pointer_array.getD (p.cell_pointer_array.length - 2) 0
        p.set_cells_start new_cells_start
      else p
    -- u16 subtraction: underflow panics
    if p1.header.num_cells = 0 then .crash
    else
      let p2 := p1.set_num_cells (p1.header.num_cells - 1)
      -- Vec::remove panics when the index is out of range
      if cell_ptr_pos ≥ p2.cell_pointer_array.length then .crash
      else
        let arr := p2.cell_pointer_array.eraseIdx cell_ptr_pos
        match p2.write_ptr_array arr with
        | none => .crash
        | some p3 => .ok p3

/-- `Page::update_same_size(key_index, key, payload, left_child)`. -/
def Page.update_same_size (p : Page) (key_index : Nat) (key : Nat) (payload : Bytes)
    (left_child : Option Nat) : MutRes Page :=
  -- `self.cell_pointer_array[key_index]` panics out of range
  if key_index ≥ p.cell_pointer_array.length then .crash
  else
    let partition_point := p.cell_pointer_array.getD key_index 0
    if partition_point > p.data.len then .crash
    else
      match DBCell.try_from_bytes (p.data.drop partition_point) with
      | .error _ => .err p .CorruptData
      | .ok cell_to_modify =>
        if cell_to_modify.key ≠ key then .err p (.UpdateNotSameKey key)
        else
          -- `payload.len() as u16`
          if cell_to_modify.payload_size ≠ payload.len % 65536 then
            .err p .UpdateNotSameSize
          else
            let new_payload_bytes := (DBCell.new key payload left_child).to_bytes
            -- `self.data[partition_point..].copy_from_slice(..)` panics unless
            -- the destination tail has exactly the source length
            if p.data.len - partition_point ≠ new_payload_bytes.len then .crash
            else .ok { p with data := writeBytes p.data partition_point new_payload_bytes }

/-- `Page::move_last_left_child_to_right_pointer`. -/
def Page.move_last_left_child_to_right_pointer (p : Page) : MutRes Page :=
  if p.cell_pointer_array.length = 0 then .err p .CannotGetFirstOrLastKey
  else
    let last_pointer := p.cell_pointer_array.getD (p.cell_pointer_array.length - 1) 0
    if last_pointer > p.data.len then .crash
    else
      match DBCell.try_from_bytes (p.data.drop last_pointer) with
      | .error _ => .err p .CorruptData
      | .ok last_cell =>
        let p1 := p.set_right_pointer last_cell.left_child
        p1.delete (p1.cell_pointer_array.length - 1)

/-- `Page::cells_iter` materialised: the decode result of every cell in
cell-pointer order (`data.get(pointer..)` is a non-panicking lookup, so an
out-of-range pointer is `CorruptData`). -/
def Page.cells_results (p : Page) : List (Except PageError DBCell) :=
  p.cell_pointer_array.map fun ptr =>
    if ptr > p.data.len then .error .CorruptData
    else
      match DBCell.try_from_bytes (p.data.drop ptr) with
      | .error _ => .error .CorruptData
      | .ok c => .ok c

/-- `Iterator::flatten` over decode results: keep the `Ok` cells. -/
def exceptOks : List (Except PageError DBCell) → List DBCell
  | [] => []
  | .error _ :: rest => exceptOks rest
  | .ok c :: rest => c :: exceptOks rest

/-- Loop of `Page::split_page`: distribute the enumerated cells, indices up to
`num_cells / 2` into the left split and the rest into the right split, each by
`Page::insert`. -/
def splitLoop (num_cells_half : Nat) : Nat → Page → Page → List DBCell →
    Option (Except PageError (Page × Page))
  | _, left, right, [] => some (.ok (left, right))
  | i, left, right, cell :: rest =>
    if i ≤ num_cells_half then
      match left.insert cell.key cell.payload (some cell.left_child) with
      | .crash => none
      | .err _ e => some (.error e)
      | .ok l => splitLoop num_cells_half (i + 1) l right rest
    else
      match right.insert cell.key cell.payload (some cell.left_child) with
      | .crash => none
      | .err _ e => some (.error e)
      | .ok r => splitLoop num_cells_half (i + 1) left r rest

/-- `Page::split_page`: build two fresh pages of the same kind (over the
uninitialised buffers `uL`, `uR`), distribute the decodable cells, and give
the right split the original right pointer. -/
def Page.split_page (p : Page) (uL uR : Bytes) : Option (Except PageError (Page × Page)) :=
  let num_cells := p.cell_pointer_array.length
  let curr_right_pointer := p.header.right_pointer
  let left_split := Page.new p.header.page_type uL
  let right_split := Page.new p.header.page_type uR
  let cells := exceptOks p.cells_results
  match splitLoop (num_cells / 2) 0 left_split right_split cells with
  | none => none
  | some (.error e) => some (.error e)
  | some (.ok (l, r)) => some (.ok (l, r.set_right_pointer curr_right_pointer))

/-- Modelled from the spec: a row is handed to the engine as its serialized
opaque byte string (§3 "Record", §6 "External collaborator contracts"); the
engine never inspects the payload, so `Page::rows_iter`'s row deserialization
is modelled as yielding the stored payload. -/
def Page.rows_results (p : Page) : List (Except PageError Bytes) :=
  p.cells_results.map fun r =>
    match r with
    | .error e => .error e
    | .ok c => .ok c.payload

/-- `PageHeader::read_from_bytes` over a full page image. -/
def PageHeader.read_from_bytes (image : Bytes) : Except PageError PageHeader :=
  if image.len < PAGE_HEADER_SIZE then .error .HeaderReadError
  else
    match PageType.try_from (image.get 0) with
    | .error e => .error e
    | .ok pt =>
      .ok { page_type := pt
            first_free_block := readBE ((image.drop 1).take 2)
            num_cells := readBE ((image.drop 3).take 2)
            cells_start := readBE ((image.drop 5).take 2)
            fragmented_free_bytes := image.get 7
            right_pointer := readBE ((image.drop 8).take 4) }

/-- `Page::new_from_read`: read exactly 4096 bytes (anything else is a reader
error), parse the header, then parse the cell-pointer array. -/
def Page.new_from_read (image : Bytes) : Except PageError Page :=
  if image.len ≠ PAGE_SIZE then .error .ReaderError
  else
    match PageHeader.read_from_bytes (image.take PAGE_HEADER_SIZE) with
    | .error e => .error e
    | .ok header =>
      match CellPtrArray.read_from_bytes header.num_cells (image.drop PAGE_HEADER_SIZE) with
      | .error e => .error e
      | .ok arr => .ok { header := header, data := image, cell_pointer_array := arr }

/-! ### Pager (`src/backend/pager.rs`) and cursor (`src/backend/cursor.rs`) -/

/-- The error enumeration `PagerError` from `pager.rs` (`Io` is not modelled:
file operations in the model always succeed at the byte level). -/
inductive PagerError where
  | PageIdxOutOfRange
  | PageRowInsertError (e : PageError)
  | PageNonExistent
  | ParentStackEmpty
  | TableFull
  deriving Repr, DecidableEq

/-- `DBCursor` from `cursor.rs` (without the table back-reference): page
number, in-page position and the parent stack recorded during descent. The
stack top is the head of the list (Rust pushes and pops at the `Vec` end). -/
structure Cursor where
  page_num : Nat
  cell_ptr_pos : Nat
  parents_stack : List Nat
  deriving Repr, DecidableEq

/-- `DBCursor::new`: at page 0 with empty stack. -/
def Cursor.new : Cursor := { page_num := 0, cell_ptr_pos := 0, parents_stack := [] }

/-- The backing file: a write log of (page number, 4096-byte image), most
recent first; `fileRead` finds the most recent image of a page. -/
abbrev DiskFile := List (Nat × Bytes)

/-- Write a page image at a page number (seek + write_all). -/
def fileWrite (f : DiskFile) (n : Nat) (img : Bytes) : DiskFile := (n, img) :: f

/-- Read the current image of a page, if one was ever written. -/
def fileRead (f : DiskFile) (n : Nat) : Option Bytes :=
  (f.find? fun e => e.1 = n).map (·.2)

/-- `Pager` from `pager.rs`. The `file` field models the shared `File`
handle; `uninit_pool` supplies the arbitrary contents of the uninitialised
buffers consumed by each `Page::new` performed on behalf of this pager (in
consumption order), defaulting to a zeroed buffer. -/
structure Pager where
  num_pages : Nat
  pages_cache : List (Option Page)
  root_page_num : Nat
  file : DiskFile
  uninit_pool : List Bytes
  deriving Repr

/-- Take the next uninitialised buffer from the pool. -/
def Pager.takeU (ps : Pager) : Bytes × Pager :=
  (ps.uninit_pool.headD (Bytes.replicate PAGE_SIZE 0), { ps with uninit_pool := ps.uninit_pool.tail })

/-- `Pager::new(file, root_page_num)`: all slots empty except a fresh leaf at
the root slot; one page allocated. -/
def Pager.new (file : DiskFile) (root_page_num : Nat) (pool : List Bytes) : Pager :=
  let u := pool.headD (Bytes.replicate PAGE_SIZE 0)
  { num_pages := 1
    pages_cache := (List.replicate TABLE_MAX_PAGES (none : Option Page)).set root_page_num
      (some (Page.new .Leaf u))
    root_page_num := root_page_num
    file := file
    uninit_pool := pool.tail }

/-- `Pager::get_unused_page_number`. -/
def Pager.get_unused_page_number (ps : Pager) : Nat := ps.num_pages

/-- `Pager::flush_page(page_idx)`: seek and write the slot's image;
`unwrap()` on an empty slot (and the panicking index on an out-of-range one)
is a crash. -/
def Pager.flush_page (ps : Pager) (page_idx : Nat) : Option Pager :=
  if page_idx ≥ ps.pages_cache.length then none
  else
    match ps.pages_cache.getD page_idx none with
    | none => none
    | some pg => some { ps with file := fileWrite ps.file page_idx pg.data }

/-- `Pager::page_write(page, page_idx)`: install into the slot, then flush. -/
def Pager.page_write (ps : Pager) (pg : Page) (page_idx : Nat) : Option Pager :=
  if page_idx ≥ ps.pages_cache.length then none
  else Pager.flush_page { ps with pages_cache := ps.pages_cache.set page_idx (some pg) } page_idx

/-- Loop of `Pager::flush_all` over the populated slot indices. -/
def flushAllGo (ps : Pager) : List Nat → Option Pager
  | [] => some ps
  | i :: rest =>
    match ps.flush_page i with
    | none => none
    | some ps1 => flushAllGo ps1 rest

/-- `Pager::flush_all`: flush every populated slot. -/
def Pager.flush_all (ps : Pager) : Option Pager :=
  flushAllGo ps
    ((List.range ps.pages_cache.length).filter fun i => (ps.pages_cache.getD i none).isSome)

/-- `Pager::retrieve_page(page_num)`: cached page, or read from disk and
install. -/
def Pager.retrieve_page (ps : Pager) (page_num : Nat) : Except PagerError (Pager × Page) :=
  if ¬ page_num < ps.num_pages then .error .PageNonExistent
  else
    match ps.pages_cache.getD page_num none with
    | some pg => .ok (ps, pg)
    | none =>
      match fileRead ps.file page_num with
      | none => .error (.PageRowInsertError .ReaderError)
      | some img =>
        match Page.new_from_read img with
        | .error e => .error (.PageRowInsertError e)
        | .ok pg => .ok ({ ps with pages_cache := ps.pages_cache.set page_num (some pg) }, pg)

/-- `Pager::get_leaf_insertion_position(cursor, key)`: descend from the
cursor's page to a leaf, pushing interior pages on the parent stack and
following `get_next_page_pointer`; `fuel` bounds the recursion depth (the
source recursion has no termination guarantee). -/
def Pager.get_leaf_insertion_position :
    Nat → Pager → Cursor → Nat → Option (Except PagerError (Pager × Cursor))
  | 0, _, _, _ => none
  | fuel + 1, ps, cursor, key =>
    match ps.retrieve_page cursor.page_num with
    | .error e => some (.error e)
    | .ok (ps1, curr_page) =>
      if curr_page.header.page_type = .Leaf then some (.ok (ps1, cursor))
      else
        match curr_page.get_next_page_pointer key with
        | none => none
        | some (.error e) => some (.error (.PageRowInsertError e))
        | some (.ok next_page_number) =>
          Pager.get_leaf_insertion_position fuel ps1
            { cursor with parents_stack := cursor.page_num :: cursor.parents_stack
                          page_num := next_page_number } key

/-- `Pager::handle_root_split(left, right, new_page_number)`: build a fresh
interior root with one routing cell for the left split and the right split as
right pointer, write it at the root slot, and allocate the right split's
page number. -/
def Pager.handle_root_split (ps : Pager) (page_left_split : Page) (_page_right_split : Page)
    (new_page_number : Nat) : Option (Except PagerError (Pager × Nat × Nat)) :=
  let left_split_page_number := new_page_number
  let right_split_page_number := ps.get_unused_page_number
  let (u, ps1) := ps.takeU
  let new_root := Page.new .Interior u
  match page_left_split.get_last_key with
  | none => none
  | some (.error e) => some (.error (.PageRowInsertError e))
  | some (.ok left_split_last_key) =>
    match new_root.insert left_split_last_key Bytes.empty (some left_split_page_number) with
    | .crash => none
    | .err _ e => some (.error (.PageRowInsertError e))
    | .ok root1 =>
      let root2 := root1.set_right_pointer right_split_page_number
      match ps1.page_write root2 ps1.root_page_num with
      | none => none
      | some ps2 =>
        some (.ok ({ ps2 with num_pages := ps2.num_pages + 1 },
          left_split_page_number, right_split_page_number))

/-- First half of `Pager::handle_page_split` (everything before its recursive
`insert` into the parent): pop the parent, take it from its slot, repoint the
routing entry (or right pointer) for the split subtree at the right split,
put the parent back and move the cursor to the parent. Returns the updated
state together with (left, right) page numbers. -/
def Pager.handle_page_split_prep (ps : Pager) (page_right_split : Page)
    (new_page_number : Nat) (cursor : Cursor) :
    Option (Except PagerError (Pager × Cursor × Nat × Nat)) :=
  match cursor.parents_stack with
  | [] => some (.error .ParentStackEmpty)
  | parent_page_num :: rest_stack =>
    let cursor1 := { cursor with parents_stack := rest_stack }
    match ps.pages_cache.get? parent_page_num with
    | none => some (.error .PageIdxOutOfRange)
    | some none => some (.error .PageNonExistent)
    | some (some split_page_parent) =>
      let ps1 := { ps with pages_cache := ps.pages_cache.set parent_page_num none }
      match page_right_split.get_last_key with
      | none => none
      | some (.error e) => some (.error (.PageRowInsertError e))
      | some (.ok right_split_last_key) =>
        let right_split_page_number := new_page_number
        let left_split_page_number := cursor1.page_num
        match split_page_parent.find_partition right_split_last_key with
        | none => none
        | some (.error e) => some (.error (.PageRowInsertError e))
        | some (.ok (key_insert_position, curr_key_in_partition)) =>
          let updated : MutRes Page :=
            if curr_key_in_partition = none then
              .ok (split_page_parent.set_right_pointer right_split_page_number)
            else
              split_page_parent.update_same_size key_insert_position right_split_last_key
                Bytes.empty (some right_split_page_number)
          match updated with
          | .crash => none
          | .err _ e => some (.error (.PageRowInsertError e))
          | .ok parent2 =>
            let ps2 := { ps1 with pages_cache := ps1.pages_cache.set parent_page_num (some parent2) }
            let cursor2 := { cursor1 with page_num := parent_page_num }
            some (.ok (ps2, cursor2, left_split_page_number, right_split_page_number))

/-- `Pager::insert(cursor, key, payload, left_child)`: take the page out of
its slot, try the page-level insert; on success write through; on `PageFull`
split, route the two splits (root split or parent update plus recursive
routing-cell insert), reposition the cursor and retry; `fuel` bounds the
recursion. An empty slot falls through to `Ok` without any effect. -/
def Pager.insert :
    Nat → Pager → Cursor → Nat → Bytes → Option Nat →
    Option (Except PagerError (Pager × Cursor))
  | 0, _, _, _, _, _ => none
  | fuel + 1, ps, cursor, key, payload, left_child =>
    match ps.pages_cache.get? cursor.page_num with
    | none => some (.error .PageIdxOutOfRange)
    | some none => some (.ok (ps, cursor))
    | some (some curr_page) =>
      let ps0 := { ps with pages_cache := ps.pages_cache.set cursor.page_num none }
      match curr_page.insert key payload left_child with
      | .crash => none
      | .ok pg =>
        match ps0.page_write pg cursor.page_num with
        | none => none
        | some ps1 => some (.ok (ps1, cursor))
      | .err pg e =>
        match e with
        | .PageFull =>
          if ps0.num_pages ≥ TABLE_MAX_PAGES then some (.error .TableFull)
          else
            let (uL, psA) := ps0.takeU
            let (uR, psB) := psA.takeU
            match pg.split_page uL uR with
            | none => none
            | some (.error e2) => some (.error (.PageRowInsertError e2))
            | some (.ok (page_left_split, page_right_split)) =>
              match page_left_split.get_last_key with
              | none => none
              | some (.error e3) => some (.error (.PageRowInsertError e3))
              | some (.ok left_split_last_key) =>
                let new_page_number := psB.get_unused_page_number
                let psC := { psB with num_pages := psB.num_pages + 1 }
                let afterRouting : Option (Except PagerError (Pager × Cursor × Nat × Nat)) :=
                  if cursor.page_num = psC.root_page_num then
                    match psC.handle_root_split page_left_split page_right_split new_page_number with
                    | none => none
                    | some (.error e4) => some (.error e4)
                    | some (.ok (psD, lnum, rnum)) =>
                      -- root split: the parent stack is not consulted further
                      some (.ok (psD, cursor, lnum, rnum))
                  else
                    match psC.handle_page_split_prep page_right_split new_page_number cursor with
                    | none => none
                    | some (.error e4) => some (.error e4)
                    | some (.ok (psD, cursor1, lnum, rnum)) =>
                      -- second half of handle_page_split: insert the routing
                      -- cell for the left split into the parent
                      match Pager.insert fuel psD cursor1 left_split_last_key Bytes.empty
                          (some lnum) with
                      | none => none
                      | some (.error e5) => some (.error e5)
                      | some (.ok (psE, cursor2)) => some (.ok (psE, cursor2, lnum, rnum))
                match afterRouting with
                | none => none
                | some (.error e6) => some (.error e6)
                | some (.ok (psF, cursor3, left_num, right_num)) =>
                  let movedLeft : MutRes Page :=
                    if page_left_split.header.page_type = .Interior then
                      page_left_split.move_last_left_child_to_right_pointer
                    else .ok page_left_split
                  match movedLeft with
                  | .crash => none
                  | .err _ e7 => some (.error (.PageRowInsertError e7))
                  | .ok left_final =>
                    let cursor4 :=
                      { cursor3 with page_num :=
                          if key < left_split_last_key then left_num else right_num }
                    if left_num ≥ psF.pages_cache.length then none
                    else if right_num ≥ psF.pages_cache.length then none
                    else
                      let cache1 := (psF.pages_cache.set left_num (some left_final)).set
                        right_num (some page_right_split)
                      let psG := { psF with pages_cache := cache1 }
                      match Pager.insert fuel psG cursor4 key payload left_child with
                      | none => none
                      | some (.error e8) => some (.error e8)
                      | some (.ok (psH, cursor5)) =>
                        match psH.flush_page left_num with
                        | none => none
                        | some psI =>
                          match psI.flush_page right_num with
                          | none => none
                          | some psJ => some (.ok (psJ, cursor5))
        | _ =>
          -- the page is put back and the error surfaces
          let _ps1 := { ps0 with pages_cache := ps0.pages_cache.set cursor.page_num (some pg) }
          some (.error (.PageRowInsertError e))

/-! ### Table and database facade (`src/backend/table.rs`, `src/backend/database.rs`) -/

/-- `TableError` from `table.rs`. -/
inductive TableError where
  | TableFull
  | RowInsertError (e : PagerError)
  | RowSerializeError
  | FlushError (e : PagerError)
  | PageProblem (e : PageError)
  deriving Repr, DecidableEq

/-- `DatabaseError` from `database.rs`. -/
inductive DatabaseError where
  | Io
  | DuplicateTable
  | TableDoesNotExist
  deriving Repr, DecidableEq

/-- `Table` from `table.rs` (name and pager; the column schema and `num_rows`
play no role in the storage behaviour under study). -/
structure Table where
  name : String
  pager : Pager
  deriving Repr

/-- `Table::new(name, columns, file)`: root page number 0 and a fresh pager. -/
def Table.new (name : String) (file : DiskFile) (pool : List Bytes) : Table :=
  { name := name, pager := Pager.new file 0 pool }

/-- `Table::insert(row)`: serialize (the row is already its opaque byte
payload in the model), make a cursor at the root, locate the leaf position
and insert through the pager. -/
def Table.insert (fuel : Nat) (t : Table) (rowid : Nat) (payload : Bytes) :
    Option (Except TableError Table) :=
  match Pager.get_leaf_insertion_position fuel t.pager Cursor.new rowid with
  | none => none
  | some (.error e) => some (.error (.RowInsertError e))
  | some (.ok (pg1, cursor1)) =>
    match Pager.insert fuel pg1 cursor1 rowid payload none with
    | none => none
    | some (.error .TableFull) => some (.error .TableFull)
    | some (.error e) => some (.error (.RowInsertError e))
    | some (.ok (pg2, _)) => some (.ok { t with pager := pg2 })

/-- Collect the row results of one page, stopping at the first error. -/
def collectRows : List (Except PageError Bytes) → Except PageError (List Bytes)
  | [] => .ok []
  | .error e :: _ => .error e
  | .ok r :: rest =>
    match collectRows rest with
    | .error e => .error e
    | .ok rs => .ok (r :: rs)

/-- Loop of `Table::deserialize_rows` over the pager's slots: keep populated
leaf pages and concatenate their decoded rows. -/
def deserializeGo : List (Option Page) → Except PageError (List Bytes)
  | [] => .ok []
  | none :: rest => deserializeGo rest
  | some pg :: rest =>
    if pg.header.page_type = .Leaf then
      match collectRows pg.rows_results with
      | .error e => .error e
      | .ok rs =>
        match deserializeGo rest with
        | .error e => .error e
        | .ok rs2 => .ok (rs ++ rs2)
    else deserializeGo rest

/-- `Table::deserialize_rows`. -/
def Table.deserialize_rows (t : Table) : Except TableError (List Bytes) :=
  match deserializeGo t.pager.pages_cache with
  | .error e => .error (.PageProblem e)
  | .ok rs => .ok rs

/-- `Table::flush`: `flush_all` on the pager. -/
def Table.flush (t : Table) : Option Table :=
  match t.pager.flush_all with
  | none => none
  | some pg => some { t with pager := pg }

/-- `Database` from `database.rs`: the shared file and the table map. -/
structure DBase where
  file : DiskFile
  tables : List (String × Table)
  deriving Repr

/-- `Database::open(path)`: the file is opened with
`create(true).write(true).truncate(true)` (and without `read(true)`), so the
backing file's previous contents are discarded and the table map starts
empty; the argument is the file found at the path before opening. -/
def Database.open_db (_existing : DiskFile) : DBase :=
  { file := [], tables := [] }

/-- `Database::add_table(table_name, columns)`. -/
def DBase.add_table (db : DBase) (table_name : String) (pool : List Bytes) :
    Except DatabaseError DBase :=
  if (db.tables.find? fun e => e.1 = table_name).isSome then .error .DuplicateTable
  else .ok { db with tables := db.tables ++ [(table_name, Table.new table_name db.file pool)] }

/-- Scenario driver for an insert through `Database::get_table` and
`Table::insert`; the shared `Rc<RefCell<File>>` handle is modelled by handing
the database's current file to the table's pager and taking the written file
back. `none` covers both panics and a missing table. -/
def DBase.insert_into (fuel : Nat) (db : DBase) (table_name : String) (rowid : Nat)
    (payload : Bytes) : Option (Except TableError DBase) :=
  match db.tables.find? fun e => e.1 = table_name with
  | none => none
  | some (_, t) =>
    let t1 : Table := { t with pager := { t.pager with file := db.file } }
    match Table.insert fuel t1 rowid payload with
    | none => none
    | some (.error e) => some (.error e)
    | some (.ok t2) =>
      let tables2 := db.tables.map fun e => if e.1 = table_name then (table_name, t2) else e
      some (.ok { db with file := t2.pager.file, tables := tables2 })

/-- Scenario driver for a full-table scan (`Table::deserialize_rows`). -/
def DBase.scan (db : DBase) (table_name : String) : Option (Except TableError (List Bytes)) :=
  match db.tables.find? fun e => e.1 = table_name with
  | none => none
  | some (_, t) => some t.deserialize_rows

/-- Loop of `Database::close` over the tables: flush each through the shared
file handle (flush errors are printed and dropped in the source; the model's
flushes cannot fail, only crash). -/
def closeGo : DiskFile → List (String × Table) → List (String × Table) →
    Option (DiskFile × List (String × Table))
  | file, acc, [] => some (file, acc.reverse)
  | file, acc, (n, t) :: rest =>
    let t1 : Table := { t with pager := { t.pager with file := file } }
    match t1.flush with
    | none => none
    | some t2 => closeGo t2.pager.file ((n, t2) :: acc) rest

/-- `Database::close`: flush all tables to the shared file. -/
def DBase.close (db : DBase) : Option DBase :=
  match closeGo db.file [] db.tables with
  | none => none
  | some (f, ts) => some { file := f, tables := ts }

/-! ### The global tree-order property (spec §4.3 "Invariants") -/

/-- All cells of a page, or `none` if any fails to decode. -/
def cellsOkList : List (Except PageError DBCell) → Option (List DBCell)
  | [] => some []
  | .error _ :: _ => none
  | .ok c :: rest =>
    match cellsOkList rest with
    | none => none
    | some cs => some (c :: cs)

/-- All record keys stored in the subtrees rooted at the listed page numbers
(leaf pages contribute their keys; interior pages recurse through every
`left_child` and the `right_pointer`); `fuel` bounds the recursion, `none`
means an undecodable or absent page or exhausted fuel. -/
def subtreeKeysList : Nat → Pager → List Nat → Option (List Nat)
  | 0, _, _ => none
  | _ + 1, _, [] => some []
  | fuel + 1, ps, pn :: rest =>
    match ps.pages_cache.getD pn none with
    | none => none
    | some pg =>
      match cellsOkList pg.cells_results with
      | none => none
      | some cells =>
        let own : Option (List Nat) :=
          if pg.header.page_type = .Leaf then some (cells.map (·.key))
          else subtreeKeysList fuel ps (cells.map (·.left_child) ++ [pg.header.right_pointer])
        match own with
        | none => none
        | some ks =>
          match subtreeKeysList fuel ps rest with
          | none => none
          | some ks2 => some (ks ++ ks2)

/-- For each routing cell, check that every key in its `left_child` subtree is
at most the routing key. -/
def cellsBelowOk (fuel : Nat) (ps : Pager) : List DBCell → Option Bool
  | [] => some true
  | c :: cs =>
    match subtreeKeysList fuel ps [c.left_child] with
    | none => none
    | some ks =>
      match cellsBelowOk fuel ps cs with
      | none => none
      | some b => some ((ks.all fun k => k ≤ c.key) && b)

/-- Check the global ordering property for every interior page reachable from
the listed pages: each `left_child` subtree holds keys `≤` the routing key,
and the `right_pointer` subtree holds keys strictly greater than all the
page's routing keys. -/
def treeOrderedList : Nat → Pager → List Nat → Option Bool
  | 0, _, _ => none
  | _ + 1, _, [] => some true
  | fuel + 1, ps, pn :: rest =>
    match ps.pages_cache.getD pn none with
    | none => none
    | some pg =>
      match cellsOkList pg.cells_results with
      | none => none
      | some cells =>
        if pg.header.page_type = .Leaf then treeOrderedList fuel ps rest
        else
          match cellsBelowOk fuel ps cells with
          | none => none
          | some leftOk =>
            match subtreeKeysList fuel ps [pg.header.right_pointer] with
            | none => none
            | some rks =>
              let rightOk := rks.all fun k => cells.all fun c => decide (c.key < k)
              match treeOrderedList fuel ps
                  ((cells.map (·.left_child) ++ [pg.header.right_pointer]) ++ rest) with
              | none => none
              | some subOk => some (leftOk && rightOk && subOk)

/-- The global ordering property of the tree rooted at `root`. -/
def treeOrdered (fuel : Nat) (ps : Pager) (root : Nat) : Option Bool :=
  treeOrderedList fuel ps [root]

/-! ### Concrete scenarios used by the analysis -/

/-- A zeroed 4096-byte buffer (one possible content of an uninitialised
buffer). -/
def zeros4096 : Bytes := Bytes.replicate PAGE_SIZE 0

/-- Extract the page of a successful mutation. -/
def mutOk : MutRes Page → Option Page
  | .ok p => some p
  | _ => none

/-- Force a page out of an `Option` (the scenarios below only apply this to
constructions whose success the theorems also verify). -/
def pageD (r : Option Page) : Page := r.getD (Page.new .Leaf Bytes.empty)

/-- A fresh empty leaf page over a zeroed buffer. -/
def emptyLeafZ : Page := Page.new .Leaf zeros4096

/-- The interior page built exactly as `Pager::handle_root_split` builds a new
root over a zeroed uninitialised buffer: one routing cell `(key 2,
left_child 1)` and right pointer 2. -/
def c3_page : Page :=
  pageD (mutOk ((Page.new .Interior zeros4096).insert 2 Bytes.empty (some 1))) |>.set_right_pointer 2

/-- An interior page with two routing cells: `(key 5, left_child 1)` inserted
first (its cell ends flush at byte 4096) and `(key 3, left_child 7)` inserted
second (its cell occupies bytes 4068..4082). -/
def c4_page : Page :=
  pageD ((mutOk ((Page.new .Interior zeros4096).insert 5 Bytes.empty (some 1))).bind fun p =>
    mutOk (p.insert 3 Bytes.empty (some 7)))

/-- A leaf page with two one-byte-payload cells, keys 1 and 2. -/
def c7_page : Page :=
  pageD ((mutOk (emptyLeafZ.insert 1 (Bytes.byte 3) none)).bind fun p =>
    mutOk (p.insert 2 (Bytes.byte 4) none))

/-- The two cells `c7_page` holds, in cell-pointer (key) order. -/
def c7_cells : List DBCell :=
  [{ payload_size := 1, key := 1, payload := Bytes.byte 3, left_child := 100 },
   { payload_size := 1, key := 2, payload := Bytes.byte 4, left_child := 100 }]

/-- A leaf page with two two-byte-payload cells: key 1 at offset 4080 and
key 2 at offset 4064. -/
def c8_page : Page :=
  pageD ((mutOk (emptyLeafZ.insert 1 (Bytes.replicate 2 5) none)).bind fun p =>
    mutOk (p.insert 2 (Bytes.replicate 2 6) none))

/-- One uninitialised-buffer content for the root built during the first root
split of the C2 run: zero everywhere except bytes 1290..1293, which hold the
big-endian value 2 (these four bytes are exactly where the misdirected decode
of `get_next_page_pointer` reads its `left_child` on that root). -/
def c2_uroot : Bytes := writeBytes zeros4096 1290 (beBytes 4 2)

/-- Uninitialised-buffer pool for the C2 run, in consumption order: the
initial root leaf, the two split halves, then the fresh root. -/
def c2_pool : List Bytes := [zeros4096, zeros4096, zeros4096, c2_uroot]

/-- Payload of the first C2 record (2034 bytes, cell size 2048). -/
def c2_payloadA : Bytes := Bytes.replicate 2034 7

/-- Payload of the second C2 record (2034 bytes, cell size 2048). -/
def c2_payloadB : Bytes := Bytes.replicate 2034 8

/-- One full insert through the pager, exactly as `Table::insert` drives it:
a fresh cursor at the root, `get_leaf_insertion_position`, then
`Pager::insert`; `none` unless the insert returns `Ok`. -/
def pagerStep (fuel : Nat) (ps : Pager) (key : Nat) (payload : Bytes) : Option Pager :=
  match Pager.get_leaf_insertion_position fuel ps Cursor.new key with
  | some (.ok (ps1, cursor1)) =>
    match Pager.insert fuel ps1 cursor1 key payload none with
    | some (.ok (ps2, _)) => some ps2
    | _ => none
  | _ => none

/-- The C2 run: from a fresh pager, insert keys 2 and 5 with 2034-byte
payloads (forcing a root split) and then key 1 with a 2-byte payload; `some`
exactly when every insert succeeded. -/
def c2_final : Option Pager :=
  (pagerStep 10 (Pager.new [] 0 c2_pool) 2 c2_payloadA).bind fun ps1 =>
    (pagerStep 10 ps1 5 c2_payloadB).bind fun ps2 =>
      pagerStep 10 ps2 1 (Bytes.replicate 2 9)

/-- The global-order check on the C2 run's final tree. -/
def c2_order : Option Bool := c2_final.bind fun ps => treeOrdered 20 ps 0

/-- Row payload of the single C1 record. -/
def c1_payload : Bytes := Bytes.replicate 2 7

/-- C1 step 1: open a database on an empty file and create table `t`. -/
def c1_db1 : Option DBase :=
  match (Database.open_db []).add_table "t" [] with
  | .ok db => some db
  | .error _ => none

/-- C1 step 2: insert the record `(rowid 1, c1_payload)` into `t`. -/
def c1_db2 : Option DBase :=
  c1_db1.bind fun db =>
    match DBase.insert_into 10 db "t" 1 c1_payload with
    | some (.ok d) => some d
    | _ => none

/-- C1 step 3: the scan of `t` before closing. -/
def c1_scan_before : Option (List Bytes) :=
  c1_db2.bind fun db =>
    match db.scan "t" with
    | some (.ok rs) => some rs
    | _ => none

/-- C1 step 4: close the database (flushing every page). -/
def c1_db_closed : Option DBase := c1_db2.bind DBase.close

/-- The cell bytes that the close left on disk at page 0, offset 4080 (the
inserted record's cell). -/
def c1_cell_on_disk : Option (Except Unit DBCell) :=
  c1_db_closed.bind fun db => (fileRead db.file 0).map fun img =>
    DBCell.try_from_bytes (img.drop 4080)

/-- C1 step 5: re-open the same file and re-create the table, as the
front end must after `Database::open` returns an empty table map. -/
def c1_db_reopened : Option DBase :=
  c1_db_closed.bind fun db =>
    match (Database.open_db db.file).add_table "t" [] with
    | .ok d => some d
    | .error _ => none

/-- C1 step 6: the scan of `t` after re-opening. -/
def c1_scan_after : Option (List Bytes) :=
  c1_db_reopened.bind fun db =>
    match db.scan "t" with
    | some (.ok rs) => some rs
    | _ => none

/-! ### Proof infrastructure: cell bookkeeping for pages built by ordered
inserts into a fresh page -/

/-- Total on-page size of a cell: `2 + 8 + len(payload) + 4`. -/
def cellSize (c : DBCell) : Nat := 14 + c.payload.len

/-- Total size of a list of cells. -/
def sizeSum (cs : List DBCell) : Nat := (cs.map cellSize).sum

/-- The offsets at which consecutive inserts into a fresh page place their
cells: each cell sits immediately below the previous `cells_start`. -/
def offsetsFrom (start : Nat) : List DBCell → List Nat
  | [] => []
  | c :: rest => (start - cellSize c) :: offsetsFrom (start - cellSize c) rest

/-- Well-formedness of a decoded cell: the recorded payload size is the
payload length, and every field fits its machine width. -/
def CellWF (c : DBCell) : Prop :=
  c.payload_size = c.payload.len ∧ c.payload_size < bpow 2 ∧ c.key < bpow 8 ∧
    c.left_child < bpow 4 ∧ c.payload.WF

/-- Every listed offset dereferences within the buffer and decodes to the
corresponding cell. -/
def DecodesAt (p : Page) (cs : List DBCell) : Prop :=
  List.Forall₂ (fun off c => off ≤ p.data.len ∧ DBCell.try_from_bytes (p.data.drop off) = .ok c)
    (offsetsFrom PAGE_SIZE cs) cs

/-- Invariant of a page obtained from `Page.new` by inserting the cells `cs`
in strictly ascending key order. -/
def BuildInv (pt : PageType) (cs : List DBCell) (p : Page) : Prop :=
  p.header.page_type = pt ∧
  p.header.num_cells = cs.length ∧
  p.header.cells_start = PAGE_SIZE - sizeSum cs ∧
  p.cell_pointer_array = offsetsFrom PAGE_SIZE cs ∧
  p.data.len = PAGE_SIZE ∧
  p.data.WF ∧
  DecodesAt p cs

/-- Success-lane fold of `Page::insert` over a cell list (the loop body of
`Page::split_page` restricted to runs in which every insert succeeds). -/
def foldIns (q : Page) : List DBCell → Option Page
  | [] => some q
  | c :: rest =>
    match q.insert c.key c.payload (some c.left_child) with
    | .ok q2 => foldIns q2 rest
    | _ => none

/-! ### Byte-string algebra -/

theorem bpow_pos (n : Nat) : 0 < bpow n := by
  unfold bpow; exact pow_pos (by norm_num) _

theorem bpow_add (m n : Nat) : bpow (m + n) = bpow m * bpow n := by
  unfold bpow; rw [Nat.mul_add, pow_add]

theorem bpow_succ (n : Nat) : bpow (n + 1) = bpow n * 256 := by
  have := bpow_add n 1
  simpa [bpow] using this

theorem Bytes.take_WF (s : Bytes) (n : Nat) : (s.take n).WF := by
  unfold Bytes.take Bytes.WF
  exact Nat.mod_lt _ (bpow_pos _)

theorem Bytes.append_WF (a b : Bytes) : (a.append b).WF := by
  unfold Bytes.append Bytes.WF
  simp only
  have ha : a.val % bpow a.len < bpow a.len := Nat.mod_lt _ (bpow_pos _)
  have hb : b.val % bpow b.len < bpow b.len := Nat.mod_lt _ (bpow_pos _)
  calc a.val % bpow a.len + b.val % bpow b.len * bpow a.len
      < bpow a.len + b.val % bpow b.len * bpow a.len := by omega
    _ = (1 + b.val % bpow b.len) * bpow a.len := by ring
    _ ≤ bpow b.len * bpow a.len := by
        exact Nat.mul_le_mul_right _ (by omega)
    _ = bpow (a.len + b.len) := by rw [bpow_add]; ring

theorem Bytes.drop_WF {s : Bytes} (h : s.WF) (n : Nat) : (s.drop n).WF := by
  unfold Bytes.drop Bytes.WF
  simp only
  unfold Bytes.WF at h
  rcases Nat.le_total n s.len with hle | hge
  · have : bpow s.len = bpow n * bpow (s.len - n) := by
      rw [← bpow_add]; congr 1; omega
    refine Nat.div_lt_of_lt_mul ?_
    rw [this] at h; exact h
  · have h0 : s.len - n = 0 := by omega
    rw [h0]
    have hlt : s.val < bpow n := lt_of_lt_of_le h (by
      unfold bpow; exact Nat.pow_le_pow_right (by norm_num) (by omega))
    have hz : s.val / bpow n = 0 := Nat.div_eq_of_lt hlt
    calc s.val / bpow n = 0 := hz
      _ < bpow 0 := bpow_pos 0

theorem Bytes.len_append (a b : Bytes) : (a.append b).len = a.len + b.len := rfl

theorem Bytes.len_take (s : Bytes) (n : Nat) : (s.take n).len = min n s.len := rfl

theorem Bytes.len_drop (s : Bytes) (n : Nat) : (s.drop n).len = s.len - n := rfl

theorem Bytes.take_append {a : Bytes} (ha : a.WF) (b : Bytes) : (a.append b).take a.len = a := by
  unfold Bytes.WF at ha
  obtain ⟨la, va⟩ := a
  simp only at ha
  simp only [Bytes.append, Bytes.take, Bytes.mk.injEq]
  refine ⟨by omega, ?_⟩
  rw [Nat.min_eq_left (Nat.le_add_right _ _), Nat.mod_eq_of_lt ha,
    Nat.add_mul_mod_self_right, Nat.mod_eq_of_lt ha]

theorem Bytes.drop_append (a : Bytes) {b : Bytes} (hb : b.WF) : (a.append b).drop a.len = b := by
  unfold Bytes.WF at hb
  obtain ⟨lb, vb⟩ := b
  simp only at hb
  simp only [Bytes.append, Bytes.drop, Bytes.mk.injEq]
  refine ⟨by omega, ?_⟩
  rw [Nat.mod_eq_of_lt hb,
    Nat.add_mul_div_right _ _ (bpow_pos a.len),
    Nat.div_eq_of_lt (Nat.mod_lt _ (bpow_pos _))]
  omega

theorem Bytes.drop_append_left {a : Bytes} (ha : a.WF) (b : Bytes) {k : Nat} (hk : k ≤ a.len) :
    (a.append b).drop k = (a.drop k).append b := by
  unfold Bytes.WF at ha
  simp only [Bytes.append, Bytes.drop, Bytes.mk.injEq]
  refine ⟨by omega, ?_⟩
  have hsplit : bpow a.len = bpow k * bpow (a.len - k) := by
    rw [← bpow_add]; congr 1; omega
  have hdlt : a.val / bpow k < bpow (a.len - k) := by
    refine Nat.div_lt_of_lt_mul ?_
    rw [← hsplit]; exact ha
  rw [Nat.mod_eq_of_lt ha, Nat.mod_eq_of_lt hdlt, hsplit]
  rw [show a.val + b.val % bpow b.len * (bpow k * bpow (a.len - k))
      = a.val + (b.val % bpow b.len * bpow (a.len - k)) * bpow k by ring]
  rw [Nat.add_mul_div_right _ _ (bpow_pos k)]

theorem Bytes.drop_append_right (a : Bytes) {b : Bytes} (hb : b.WF) {k : Nat} (hk : a.len ≤ k) :
    (a.append b).drop k = b.drop (k - a.len) := by
  unfold Bytes.WF at hb
  simp only [Bytes.append, Bytes.drop, Bytes.mk.injEq]
  refine ⟨by omega, ?_⟩
  have hsplit : bpow k = bpow a.len * bpow (k - a.len) := by
    rw [← bpow_add]; congr 1; omega
  rw [Nat.mod_eq_of_lt hb, hsplit, ← Nat.div_div_eq_div_mul,
    Nat.add_mul_div_right _ _ (bpow_pos a.len),
    Nat.div_eq_of_lt (Nat.mod_lt _ (bpow_pos _))]
  simp

theorem Bytes.append_assoc (a b c : Bytes) :
    (a.append b).append c = a.append (b.append c) := by
  have hab : (a.append b).WF := Bytes.append_WF a b
  have hbc : (b.append c).WF := Bytes.append_WF b c
  unfold Bytes.WF at hab hbc
  simp only [Bytes.append, Bytes.mk.injEq] at hab hbc ⊢
  refine ⟨by omega, ?_⟩
  rw [Nat.mod_eq_of_lt hab, Nat.mod_eq_of_lt hbc, bpow_add]
  ring

theorem Bytes.drop_drop (s : Bytes) (m n : Nat) : (s.drop m).drop n = s.drop (m + n) := by
  simp only [Bytes.drop, Bytes.mk.injEq]
  refine ⟨by omega, ?_⟩
  rw [Nat.div_div_eq_div_mul, ← bpow_add]

theorem Bytes.take_full {s : Bytes} (hs : s.WF) : s.take s.len = s := by
  unfold Bytes.WF at hs
  obtain ⟨l, v⟩ := s
  simp only at hs
  simp only [Bytes.take, Bytes.mk.injEq, Nat.min_self]
  exact ⟨trivial, Nat.mod_eq_of_lt hs⟩

theorem writeBytes_WF (d : Bytes) (pos : Nat) (s : Bytes) : (writeBytes d pos s).WF :=
  Bytes.append_WF _ _

theorem writeBytes_len {d : Bytes} {pos : Nat} {s : Bytes} (h : pos + s.len ≤ d.len) :
    (writeBytes d pos s).len = d.len := by
  simp only [writeBytes, Bytes.len_append, Bytes.len_take, Bytes.len_drop]
  omega

theorem drop_writeBytes_high {d : Bytes} (hd : d.WF) {pos k : Nat} {s : Bytes}
    (hpos : pos ≤ d.len) (h : pos + s.len ≤ k) :
    (writeBytes d pos s).drop k = d.drop k := by
  unfold writeBytes
  have hX : ((d.take pos).append s).len = pos + s.len := by
    simp only [Bytes.len_append, Bytes.len_take]; omega
  have hY : (d.drop (pos + s.len)).WF := Bytes.drop_WF hd _
  rw [Bytes.drop_append_right _ hY (by omega : ((d.take pos).append s).len ≤ k)]
  rw [hX, Bytes.drop_drop]
  congr 1
  omega

theorem drop_writeBytes_at {d : Bytes} {pos : Nat} (s : Bytes) (hpos : pos ≤ d.len) :
    (writeBytes d pos s).drop pos = s.append (d.drop (pos + s.len)) := by
  unfold writeBytes
  rw [Bytes.append_assoc]
  have htk : (d.take pos).len = pos := by
    simp only [Bytes.len_take]; omega
  have := Bytes.drop_append (d.take pos)
    (Bytes.append_WF s (d.drop (pos + s.len)))
  rw [htk] at this
  exact this

/-! ### Big-endian codec correctness -/

theorem readBEAux_lt : ∀ (n v : Nat), readBEAux n v < bpow n
  | 0, _ => bpow_pos 0
  | n + 1, v => by
    have ih := readBEAux_lt n (v % bpow n)
    have hb : v / bpow n % 256 < 256 := Nat.mod_lt _ (by norm_num)
    simp only [readBEAux]
    rw [bpow_succ]
    omega

theorem beVal_lt : ∀ (w v : Nat), beVal w v < bpow w
  | 0, _ => bpow_pos 0
  | w + 1, v => by
    have ih := beVal_lt w (v / 256)
    have hb : v % 256 < 256 := Nat.mod_lt _ (by norm_num)
    simp only [beVal]
    rw [bpow_succ]
    calc beVal w (v / 256) + v % 256 * bpow w
        ≤ (bpow w - 1) + 255 * bpow w := by
          have h1 : beVal w (v / 256) ≤ bpow w - 1 := by omega
          have h2 : v % 256 * bpow w ≤ 255 * bpow w :=
            Nat.mul_le_mul_right _ (by omega)
          omega
      _ < bpow w * 256 := by
          have := bpow_pos w
          omega

theorem beBytes_WF (w v : Nat) : (beBytes w v).WF := beVal_lt w v

theorem readBEAux_beVal : ∀ (w v : Nat), readBEAux w (beVal w v) = v % bpow w
  | 0, _ => by simp [readBEAux, beVal, bpow, Nat.mod_one]
  | w + 1, v => by
    have hlow : beVal (w + 1) v % bpow w = beVal w (v / 256) := by
      simp only [beVal]
      rw [Nat.add_mul_mod_self_right, Nat.mod_eq_of_lt (beVal_lt _ _)]
    have hhigh : beVal (w + 1) v / bpow w % 256 = v % 256 := by
      simp only [beVal]
      rw [Nat.add_mul_div_right _ _ (bpow_pos w),
        Nat.div_eq_of_lt (beVal_lt _ _)]
      simp [Nat.mod_mod_of_dvd]
    have ih := readBEAux_beVal w (v / 256)
    simp only [readBEAux, hlow, hhigh, ih]
    have hm : v % (256 * bpow w) = 256 * (v / 256 % bpow w) + v % 256 := by
      conv_lhs => rw [← Nat.div_add_mod (v % (256 * bpow w)) 256]
      rw [Nat.mod_mul_right_div_self, Nat.mod_mul_right_mod]
    rw [bpow_succ]
    rw [show bpow w * 256 = 256 * bpow w by ring, hm]
    ring

theorem readBE_beBytes (w v : Nat) : readBE (beBytes w v) = v % bpow w :=
  readBEAux_beVal w v

/-! ### Cell codec roundtrip -/

theorem DBCell.to_bytes_len (c : DBCell) : c.to_bytes.len = 14 + c.payload.len := by
  simp only [DBCell.to_bytes, Bytes.len_append, beBytes]
  omega

theorem DBCell.new_self (c : DBCell) (h : c.payload_size = c.payload.len) :
    DBCell.new c.key c.payload (some c.left_child) = c := by
  unfold DBCell.new
  cases c
  simp only [Option.getD] at *
  simp_all

theorem decode_encode (c : DBCell) (rest : Bytes) (h : CellWF c) :
    DBCell.try_from_bytes (c.to_bytes.append rest) = .ok c := by
  obtain ⟨hsz, hps, hkey, hlc, hpw⟩ := h
  have hA : (beBytes 2 c.payload_size).WF := beBytes_WF _ _
  have hB : (beBytes 8 c.key).WF := beBytes_WF _ _
  have hL : (beBytes 4 c.left_child).WF := beBytes_WF _ _
  -- reassociate the encoded image so its shape matches the decoder's reads
  have hshape : c.to_bytes.append rest
      = (beBytes 2 c.payload_size).append ((beBytes 8 c.key).append
          (c.payload.append ((beBytes 4 c.left_child).append rest))) := by
    simp only [DBCell.to_bytes, Bytes.append_assoc]
  have hlen : (c.to_bytes.append rest).len = 14 + c.payload.len + rest.len := by
    simp only [Bytes.len_append, DBCell.to_bytes_len]
  rw [hshape]
  set s := (beBytes 2 c.payload_size).append ((beBytes 8 c.key).append
    (c.payload.append ((beBytes 4 c.left_child).append rest))) with hs
  have hslen : s.len = 14 + c.payload.len + rest.len := by
    rw [hs]; simp only [Bytes.len_append, beBytes]; omega
  have htake2 : s.take 2 = beBytes 2 c.payload_size := by
    rw [hs]
    have := Bytes.take_append hA ((beBytes 8 c.key).append
      (c.payload.append ((beBytes 4 c.left_child).append rest)))
    simpa using this
  have hdrop2 : s.drop 2 = (beBytes 8 c.key).append
      (c.payload.append ((beBytes 4 c.left_child).append rest)) := by
    rw [hs]
    have := Bytes.drop_append (beBytes 2 c.payload_size)
      (Bytes.append_WF (beBytes 8 c.key)
        (c.payload.append ((beBytes 4 c.left_child).append rest)))
    simpa using this
  have htake8 : (s.drop 2).take 8 = beBytes 8 c.key := by
    rw [hdrop2]
    have := Bytes.take_append hB (c.payload.append ((beBytes 4 c.left_child).append rest))
    simpa using this
  have hdrop10 : s.drop 10 = c.payload.append ((beBytes 4 c.left_child).append rest) := by
    rw [show (10 : Nat) = 2 + 8 by rfl, ← Bytes.drop_drop, hdrop2]
    have := Bytes.drop_append (beBytes 8 c.key)
      (Bytes.append_WF c.payload ((beBytes 4 c.left_child).append rest))
    simpa using this
  have htakeP : (s.drop 10).take c.payload.len = c.payload := by
    rw [hdrop10]
    exact Bytes.take_append hpw _
  have hdropP : s.drop (10 + c.payload.len) = (beBytes 4 c.left_child).append rest := by
    rw [← Bytes.drop_drop, hdrop10]
    have := Bytes.drop_append c.payload
      (Bytes.append_WF (beBytes 4 c.left_child) rest)
    simpa using this
  have htake4 : (s.drop (10 + c.payload.len)).take 4 = beBytes 4 c.left_child := by
    rw [hdropP]
    have := Bytes.take_append hL rest
    simpa using this
  have hps2 : readBE (s.take 2) = c.payload_size := by
    rw [htake2, readBE_beBytes, Nat.mod_eq_of_lt hps]
  have hkey2 : readBE ((s.drop 2).take 8) = c.key := by
    rw [htake8, readBE_beBytes, Nat.mod_eq_of_lt hkey]
  unfold DBCell.try_from_bytes
  rw [if_neg (by omega : ¬ s.len < 14)]
  simp only [hps2, hkey2]
  rw [if_pos (by omega : 10 + c.payload_size ≤ s.len)]
  rw [if_pos (by omega : 10 + c.payload_size + 4 ≤ s.len)]
  have hpayload : (s.drop 10).take c.payload_size = c.payload := by
    rw [hsz]; exact htakeP
  have hlc2 : readBE ((s.drop (10 + c.payload_size)).take 4) = c.left_child := by
    rw [hsz, htake4, readBE_beBytes, Nat.mod_eq_of_lt hlc]
  rw [hpayload, hlc2]

theorem bpow_le_bpow {m n : Nat} (h : m ≤ n) : bpow m ≤ bpow n := by
  unfold bpow; exact Nat.pow_le_pow_right (by norm_num) (by omega)

theorem readBE_lt (s : Bytes) : readBE s < bpow s.len := readBEAux_lt _ _

theorem decode_CellWF {s : Bytes} {c : DBCell} (h : DBCell.try_from_bytes s = .ok c) :
    CellWF c := by
  unfold DBCell.try_from_bytes at h
  split_ifs at h with h1 h2 h3
  all_goals cases h
  refine ⟨?_, ?_, ?_, ?_, Bytes.take_WF _ _⟩
  · simp only [Bytes.len_take, Bytes.len_drop]
    omega
  · have := readBE_lt (s.take 2)
    calc readBE (s.take 2) < bpow (s.take 2).len := this
      _ ≤ bpow 2 := bpow_le_bpow (by simp [Bytes.len_take])
  · have := readBE_lt ((s.drop 2).take 8)
    calc readBE ((s.drop 2).take 8) < bpow ((s.drop 2).take 8).len := this
      _ ≤ bpow 8 := bpow_le_bpow (by simp [Bytes.len_take])
  · have := readBE_lt ((s.drop (10 + readBE (s.take 2))).take 4)
    calc readBE ((s.drop (10 + readBE (s.take 2))).take 4)
        < bpow ((s.drop (10 + readBE (s.take 2))).take 4).len := this
      _ ≤ bpow 4 := bpow_le_bpow (by simp [Bytes.len_take])

theorem decode_id_from_slice {s : Bytes} {c : DBCell}
    (h : DBCell.try_from_bytes s = .ok c) : DBCell.id_from_slice s = .ok c.key := by
  unfold DBCell.try_from_bytes at h
  split_ifs at h with h1 h2 h3
  all_goals cases h
  unfold DBCell.id_from_slice
  rw [if_neg (by omega)]

/-! ### Binary-search partition-point facts -/

theorem ppAux_le (keys : List Nat) (pred : Nat → Bool) :
    ∀ (fuel left size : Nat), ppAux keys pred fuel left size ≤ left + size := by
  intro fuel
  induction fuel with
  | zero => intro left size; simp [ppAux]
  | succ f ih =>
    intro left size
    simp only [ppAux]
    by_cases h0 : size = 0
    · simp [h0]
    · rw [if_neg h0]
      split
      · calc ppAux keys pred f (left + size / 2 + 1) (size - size / 2 - 1)
            ≤ (left + size / 2 + 1) + (size - size / 2 - 1) := ih _ _
          _ ≤ left + size := by omega
      · calc ppAux keys pred f left (size / 2)
            ≤ left + size / 2 := ih _ _
          _ ≤ left + size := by omega

theorem ppAux_all (keys : List Nat) (pred : Nat → Bool)
    (hall : ∀ i, i < keys.length → pred (keys.getD i 0) = true) :
    ∀ (fuel left size : Nat), size ≤ fuel → left + size ≤ keys.length →
      ppAux keys pred fuel left size = left + size := by
  intro fuel
  induction fuel with
  | zero =>
    intro left size h1 h2
    have hz : size = 0 := by omega
    subst hz
    simp [ppAux]
  | succ f ih =>
    intro left size hsz hlen
    simp only [ppAux]
    by_cases h0 : size = 0
    · simp [h0]
    · rw [if_neg h0]
      have hmid : left + size / 2 < keys.length := by omega
      rw [if_pos (hall _ hmid)]
      rw [ih (left + size / 2 + 1) (size - size / 2 - 1) (by omega) (by omega)]
      omega

theorem partitionPoint_le (keys : List Nat) (pred : Nat → Bool) :
    partitionPoint keys pred ≤ keys.length := by
  unfold partitionPoint
  have := ppAux_le keys pred keys.length 0 keys.length
  omega

theorem partitionPoint_all (keys : List Nat) (pred : Nat → Bool)
    (hall : ∀ k ∈ keys, pred k = true) : partitionPoint keys pred = keys.length := by
  unfold partitionPoint
  have h : ∀ i, i < keys.length → pred (keys.getD i 0) = true := by
    intro i hi
    rw [List.getD_eq_getElem _ _ hi]
    exact hall _ (List.getElem_mem hi)
  have := ppAux_all keys pred h keys.length 0 keys.length (le_refl _) (by omega)
  omega

theorem find_partition_no_dup {p : Page} {ks : List Nat} {key : Nat}
    (h : p.get_keys = some (.ok ks)) (hnd : key ∉ ks) :
    ∃ pp opt, p.find_partition key = some (.ok (pp, opt)) ∧ pp ≤ ks.length ∧
      opt ≠ some key := by
  unfold Page.find_partition
  rw [h]
  dsimp only
  by_cases hge : partitionPoint ks (fun k => decide (k < key)) ≥ ks.length
  · exact ⟨ks.length, none, by rw [if_pos hge], le_refl _, by simp⟩
  · refine ⟨partitionPoint ks (fun k => decide (k < key)),
      some (ks.getD (partitionPoint ks (fun k => decide (k < key))) 0),
      by rw [if_neg hge], by omega, ?_⟩
    have hlt : partitionPoint ks (fun k => decide (k < key)) < ks.length := by omega
    have hmem : ks.getD (partitionPoint ks (fun k => decide (k < key))) 0 ∈ ks := by
      rw [List.getD_eq_getElem _ _ hlt]
      exact List.getElem_mem hlt
    intro hc
    rw [Option.some.injEq] at hc
    rw [hc] at hmem
    exact hnd hmem

theorem find_partition_all_lt {p : Page} {ks : List Nat} {key : Nat}
    (h : p.get_keys = some (.ok ks)) (hall : ∀ k ∈ ks, k < key) :
    p.find_partition key = some (.ok (ks.length, none)) := by
  unfold Page.find_partition
  rw [h]
  dsimp only
  have hpp : partitionPoint ks (fun k => decide (k < key)) = ks.length :=
    partitionPoint_all _ _ (fun k hk => by simp [hall k hk])
  rw [if_pos (by omega)]

theorem keysFromPtrs_length {d : Bytes} :
    ∀ {offs : List Nat} {ks : List Nat},
      keysFromPtrs d offs = some (.ok ks) → ks.length = offs.length := by
  intro offs
  induction offs with
  | nil => intro ks h; simp only [keysFromPtrs] at h; cases h; rfl
  | cons ptr rest ih =>
    intro ks h
    simp only [keysFromPtrs] at h
    by_cases hptr : ptr > d.len
    · rw [if_pos hptr] at h; cases h
    · rw [if_neg hptr] at h
      cases hid : DBCell.id_from_slice (d.drop ptr) with
        | error e => simp only [hid] at h; simp at h
        | ok k =>
          simp only [hid] at h
          cases hrest : keysFromPtrs d rest with
          | none => simp only [hrest] at h; simp at h
          | some r =>
            cases r with
            | error e => simp only [hrest] at h; simp at h
            | ok ks2 =>
              simp only [hrest] at h
              cases h
              simp [ih hrest]

theorem keysFromPtrs_of_decodes {d : Bytes} :
    ∀ {offs : List Nat} {cs : List DBCell},
      List.Forall₂ (fun off c => off ≤ d.len ∧ DBCell.try_from_bytes (d.drop off) = .ok c)
        offs cs →
      keysFromPtrs d offs = some (.ok (cs.map (·.key))) := by
  intro offs cs h
  induction h with
  | nil => rfl
  | cons hpair _ ih =>
    rename_i off c offs2 cs2 _
    simp only [keysFromPtrs]
    rw [if_neg (by omega), decode_id_from_slice hpair.2, ih]
    rfl

theorem get_keys_length {p : Page} {ks : List Nat} (h : p.get_keys = some (.ok ks)) :
    ks.length = p.cell_pointer_array.length := by
  unfold Page.get_keys at h
  cases hk : keysFromPtrs p.data p.cell_pointer_array with
  | none => rw [hk] at h; cases h
  | some r =>
    cases r with
    | error e => rw [hk] at h; cases h
    | ok ks2 =>
      rw [hk] at h
      cases h
      exact keysFromPtrs_length hk

theorem wpaGo_some :
    ∀ (arr : List Nat) (region : Bytes) (idx : Nat),
      2 * (idx + arr.length) ≤ region.len →
      ∃ r, wpaGo region idx arr = some r ∧ r.len = region.len := by
  intro arr
  induction arr with
  | nil => exact fun region idx _ => ⟨region, rfl, rfl⟩
  | cons v rest ih =>
    intro region idx h
    have hlen : idx * 2 + 1 < region.len := by simp at h; omega
    have hwl : (writeBytes region (idx * 2)
        ((Bytes.byte (v % 256)).append (Bytes.byte (v / 256 % 256)))).len = region.len := by
      refine writeBytes_len ?_
      simp only [Bytes.len_append, Bytes.byte]
      omega
    obtain ⟨r, hr, hrl⟩ := ih
      (writeBytes region (idx * 2) ((Bytes.byte (v % 256)).append (Bytes.byte (v / 256 % 256))))
      (idx + 1) (by rw [hwl]; simp at h ⊢; omega)
    refine ⟨r, ?_, by rw [hrl, hwl]⟩
    unfold wpaGo CellPtrArray.write_u16_in_bytes
    rw [if_pos hlen]
    exact hr

@[simp] theorem Page.set_cells_start_arr (p : Page) (v : Nat) :
    (p.set_cells_start v).cell_pointer_array = p.cell_pointer_array := rfl

@[simp] theorem Page.set_num_cells_arr (p : Page) (v : Nat) :
    (p.set_num_cells v).cell_pointer_array = p.cell_pointer_array := rfl

@[simp] theorem Page.set_right_pointer_arr (p : Page) (v : Nat) :
    (p.set_right_pointer v).cell_pointer_array = p.cell_pointer_array := rfl

@[simp] theorem Page.set_page_type_arr (p : Page) (v : PageType) :
    (p.set_page_type v).cell_pointer_array = p.cell_pointer_array := rfl

@[simp] theorem Page.set_cells_start_type (p : Page) (v : Nat) :
    (p.set_cells_start v).header.page_type = p.header.page_type := rfl

@[simp] theorem Page.set_num_cells_type (p : Page) (v : Nat) :
    (p.set_num_cells v).header.page_type = p.header.page_type := rfl

@[simp] theorem Page.set_right_pointer_type (p : Page) (v : Nat) :
    (p.set_right_pointer v).header.page_type = p.header.page_type := rfl

@[simp] theorem Page.set_cells_start_num (p : Page) (v : Nat) :
    (p.set_cells_start v).header.num_cells = p.header.num_cells := rfl

@[simp] theorem Page.set_num_cells_num (p : Page) (v : Nat) :
    (p.set_num_cells v).header.num_cells = v := rfl

@[simp] theorem Page.set_right_pointer_num (p : Page) (v : Nat) :
    (p.set_right_pointer v).header.num_cells = p.header.num_cells := rfl

@[simp] theorem Page.set_cells_start_cs (p : Page) (v : Nat) :
    (p.set_cells_start v).header.cells_start = v := rfl

@[simp] theorem Page.set_num_cells_cs (p : Page) (v : Nat) :
    (p.set_num_cells v).header.cells_start = p.header.cells_start := rfl

@[simp] theorem Page.set_right_pointer_cs (p : Page) (v : Nat) :
    (p.set_right_pointer v).header.cells_start = p.header.cells_start := rfl

@[simp] theorem Page.set_right_pointer_rp (p : Page) (v : Nat) :
    (p.set_right_pointer v).header.right_pointer = v := rfl

@[simp] theorem Page.set_cells_start_rp (p : Page) (v : Nat) :
    (p.set_cells_start v).header.right_pointer = p.header.right_pointer := rfl

@[simp] theorem Page.set_num_cells_rp (p : Page) (v : Nat) :
    (p.set_num_cells v).header.right_pointer = p.header.right_pointer := rfl

theorem Page.set_cells_start_len {p : Page} (h : 7 ≤ p.data.len) (v : Nat) :
    (p.set_cells_start v).data.len = p.data.len := by
  unfold Page.set_cells_start
  exact writeBytes_len (by simp [beBytes]; omega)

theorem Page.set_num_cells_len {p : Page} (h : 5 ≤ p.data.len) (v : Nat) :
    (p.set_num_cells v).data.len = p.data.len := by
  unfold Page.set_num_cells
  exact writeBytes_len (by simp [beBytes]; omega)

theorem Page.set_right_pointer_len {p : Page} (h : 12 ≤ p.data.len) (v : Nat) :
    (p.set_right_pointer v).data.len = p.data.len := by
  unfold Page.set_right_pointer
  exact writeBytes_len (by simp [beBytes]; omega)

theorem insert_finish_ok (p3 : Page) (pp pos : Nat)
    (hpp : pp ≤ p3.cell_pointer_array.length)
    (hsz : PAGE_HEADER_SIZE + 2 * (p3.cell_pointer_array.length + 1) ≤ p3.data.len) :
    ∃ q, p3.insert_finish pp pos = .ok q := by
  unfold Page.insert_finish
  rw [if_neg (by omega)]
  obtain ⟨r, hr, _⟩ := wpaGo_some (p3.cell_pointer_array.insertIdx pp pos)
    (p3.data.drop PAGE_HEADER_SIZE) 0
    (by
      rw [List.length_insertIdx _ _ hpp]
      simp only [Bytes.len_drop, PAGE_HEADER_SIZE] at hsz ⊢
      omega)
  unfold Page.write_ptr_array
  rw [hr]
  exact ⟨_, rfl⟩

@[simp] theorem Page.set_page_type_type (p : Page) (v : PageType) :
    (p.set_page_type v).header.page_type = v := rfl

@[simp] theorem Page.set_page_type_num (p : Page) (v : PageType) :
    (p.set_page_type v).header.num_cells = p.header.num_cells := rfl

@[simp] theorem Page.set_page_type_cs (p : Page) (v : PageType) :
    (p.set_page_type v).header.cells_start = p.header.cells_start := rfl

theorem sizeSum_nil : sizeSum [] = 0 := rfl

theorem sizeSum_cons (c : DBCell) (cs : List DBCell) :
    sizeSum (c :: cs) = cellSize c + sizeSum cs := by
  simp [sizeSum]

theorem sizeSum_append (cs ds : List DBCell) :
    sizeSum (cs ++ ds) = sizeSum cs + sizeSum ds := by
  simp [sizeSum]

theorem offsetsFrom_length (start : Nat) : ∀ (cs : List DBCell),
    (offsetsFrom start cs).length = cs.length := by
  intro cs
  induction cs generalizing start with
  | nil => rfl
  | cons c rest ih => simp [offsetsFrom, ih]

theorem offsetsFrom_append (start : Nat) : ∀ (cs : List DBCell) (c : DBCell),
    offsetsFrom start (cs ++ [c])
      = offsetsFrom start cs ++ [start - sizeSum cs - cellSize c] := by
  intro cs
  induction cs generalizing start with
  | nil => intro c; simp [offsetsFrom, sizeSum_nil]
  | cons c0 rest ih =>
    intro c
    simp only [List.append_eq, List.cons_append, offsetsFrom, ih, sizeSum_cons]
    have hx : start - cellSize c0 - sizeSum rest - cellSize c
        = start - (cellSize c0 + sizeSum rest) - cellSize c := by omega
    rw [hx]

theorem offsetsFrom_ge (start : Nat) : ∀ (cs : List DBCell),
    ∀ off ∈ offsetsFrom start cs, start - sizeSum cs ≤ off := by
  intro cs
  induction cs generalizing start with
  | nil => intro off h; cases h
  | cons c rest ih =>
    intro off h
    simp only [offsetsFrom, List.mem_cons] at h
    rcases h with h | h
    · subst h; rw [sizeSum_cons]; omega
    · have := ih (start - cellSize c) off h
      rw [sizeSum_cons]
      omega

theorem offsetsFrom_le (start : Nat) : ∀ (cs : List DBCell),
    ∀ off ∈ offsetsFrom start cs, off ≤ start := by
  intro cs
  induction cs generalizing start with
  | nil => intro off h; cases h
  | cons c rest ih =>
    intro off h
    simp only [offsetsFrom, List.mem_cons] at h
    rcases h with h | h
    · omega
    · have := ih (start - cellSize c) off h
      omega

theorem forall2_imp_mem {α β : Type} {P Q : α → β → Prop} :
    ∀ {l1 : List α} {l2 : List β}, List.Forall₂ P l1 l2 →
      (∀ a b, a ∈ l1 → P a b → Q a b) → List.Forall₂ Q l1 l2 := by
  intro l1 l2 h
  induction h with
  | nil => intro _; exact List.Forall₂.nil
  | cons hab _ ih =>
    intro himp
    exact List.Forall₂.cons (himp _ _ (by simp) hab)
      (ih fun a b ha hp => himp a b (by simp [ha]) hp)

theorem wpaGo_WF : ∀ (arr : List Nat) {region : Bytes} {idx : Nat} {r : Bytes},
    wpaGo region idx arr = some r → region.WF → r.WF := by
  intro arr
  induction arr with
  | nil => intro region idx r h hw; cases h; exact hw
  | cons v rest ih =>
    intro region idx r h hw
    unfold wpaGo CellPtrArray.write_u16_in_bytes at h
    split_ifs at h
    exact ih h (writeBytes_WF _ _ _)

theorem wpaGo_drop : ∀ (arr : List Nat) {region : Bytes} {idx : Nat} {r : Bytes},
    wpaGo region idx arr = some r → region.WF →
    ∀ k, 2 * (idx + arr.length) ≤ k → r.drop k = region.drop k := by
  intro arr
  induction arr with
  | nil => intro region idx r h _ k _; cases h; rfl
  | cons v rest ih =>
    intro region idx r h hw k hk
    unfold wpaGo CellPtrArray.write_u16_in_bytes at h
    split_ifs at h with hin
    · have hstep := ih h (writeBytes_WF _ _ _) k (by simp at hk ⊢; omega)
      rw [hstep]
      refine drop_writeBytes_high hw (by omega) ?_
      simp only [Bytes.len_append, Bytes.byte]
      simp at hk
      omega

theorem wpaGo_len : ∀ (arr : List Nat) {region : Bytes} {idx : Nat} {r : Bytes},
    wpaGo region idx arr = some r → r.len = region.len := by
  intro arr
  induction arr with
  | nil => intro region idx r h; cases h; rfl
  | cons v rest ih =>
    intro region idx r h
    unfold wpaGo CellPtrArray.write_u16_in_bytes at h
    split_ifs at h with hin
    rw [ih h]
    exact writeBytes_len (by simp only [Bytes.len_append, Bytes.byte]; omega)

/-! ### Building pages by ordered insertion (machinery for `Page::split_page`) -/

theorem Page.set_page_type_len {p : Page} (h : 1 ≤ p.data.len) (v : PageType) :
    (p.set_page_type v).data.len = p.data.len := by
  unfold Page.set_page_type
  exact writeBytes_len (by simp [Bytes.byte]; omega)

theorem DecodesAt_transfer {p q : Page} {cs : List DBCell}
    (h : DecodesAt p cs) (hlen : p.data.len ≤ q.data.len)
    (hdrop : ∀ off ∈ offsetsFrom PAGE_SIZE cs, q.data.drop off = p.data.drop off) :
    DecodesAt q cs :=
  forall2_imp_mem h (fun off c hmem hp =>
    ⟨le_trans hp.1 hlen, by rw [hdrop off hmem]; exact hp.2⟩)

theorem Page.new_len (pt : PageType) (u : Bytes) (hu : 12 ≤ u.len) :
    (Page.new pt u).data.len = u.len := by
  show (writeBytes (writeBytes (writeBytes u 0 (Bytes.byte pt.tag)) 5 (beBytes 2 PAGE_SIZE)) 8
      (beBytes 4 INVALID_PAGE_NUM)).len = u.len
  have hb1 : (Bytes.byte pt.tag).len = 1 := rfl
  have hb2 : (beBytes 2 PAGE_SIZE).len = 2 := rfl
  have hb4 : (beBytes 4 INVALID_PAGE_NUM).len = 4 := rfl
  have h1 : (writeBytes u 0 (Bytes.byte pt.tag)).len = u.len :=
    writeBytes_len (by simp only [hb1]; omega)
  have h2 : (writeBytes (writeBytes u 0 (Bytes.byte pt.tag)) 5 (beBytes 2 PAGE_SIZE)).len
      = u.len := by
    rw [writeBytes_len (by simp only [hb2, h1]; omega)]
    exact h1
  rw [writeBytes_len (by simp only [hb4, h2]; omega)]
  exact h2

theorem BuildInv_new (pt : PageType) (u : Bytes) (hu : u.len = PAGE_SIZE) :
    BuildInv pt [] (Page.new pt u) := by
  have hP : PAGE_SIZE = 4096 := rfl
  refine ⟨by simp [Page.new], by simp [Page.new], by simp [Page.new, sizeSum_nil],
    by simp [Page.new, offsetsFrom], ?_, ?_, ?_⟩
  · rw [Page.new_len pt u (by omega)]
    exact hu
  · show (writeBytes (writeBytes (writeBytes u 0 (Bytes.byte pt.tag)) 5 (beBytes 2 PAGE_SIZE)) 8
      (beBytes 4 INVALID_PAGE_NUM)).WF
    exact writeBytes_WF _ _ _
  · exact List.Forall₂.nil

theorem insert_finish_spec (p3 : Page) (pp pos : Nat)
    (hpp : pp = p3.cell_pointer_array.length)
    (hwf : p3.data.WF)
    (hsz : PAGE_HEADER_SIZE + 2 * (p3.cell_pointer_array.length + 1) ≤ p3.data.len) :
    ∃ q, p3.insert_finish pp pos = .ok q ∧
      q.header = p3.header ∧
      q.cell_pointer_array = p3.cell_pointer_array ++ [pos] ∧
      q.data.len = p3.data.len ∧ q.data.WF ∧
      ∀ k, PAGE_HEADER_SIZE + 2 * (p3.cell_pointer_array.length + 1) ≤ k →
        q.data.drop k = p3.data.drop k := by
  have hph : PAGE_HEADER_SIZE = 12 := rfl
  subst hpp
  unfold Page.insert_finish
  rw [if_neg (by omega), List.insertIdx_length_self]
  have hreg : (p3.data.drop PAGE_HEADER_SIZE).WF := Bytes.drop_WF hwf _
  obtain ⟨r, hr, hrl⟩ := wpaGo_some (p3.cell_pointer_array ++ [pos])
    (p3.data.drop PAGE_HEADER_SIZE) 0
    (by simp only [List.length_append, List.length_cons, List.length_nil, Bytes.len_drop]; omega)
  have hrwf : r.WF := wpaGo_WF _ hr hreg
  unfold Page.write_ptr_array
  rw [hr]
  have hta : (p3.data.take PAGE_HEADER_SIZE).len = PAGE_HEADER_SIZE := by
    simp only [Bytes.len_take]; omega
  refine ⟨_, rfl, rfl, rfl, ?_, Bytes.append_WF _ _, ?_⟩
  · simp only [Bytes.len_append, hta, hrl, Bytes.len_drop]
    omega
  · intro k hk
    rw [Bytes.drop_append_right _ hrwf (by rw [hta]; omega), hta]
    have hd := wpaGo_drop _ hr hreg (k - PAGE_HEADER_SIZE)
      (by simp only [List.length_append, List.length_cons, List.length_nil]; omega)
    rw [hd, Bytes.drop_drop]
    congr 1
    omega

theorem insert_step {pt : PageType} {cs : List DBCell} {p : Page} (c : DBCell)
    (hinv : BuildInv pt cs p)
    (hall : ∀ k ∈ cs.map (fun x => x.key), k < c.key)
    (hwfc : CellWF c)
    (hsp : PAGE_HEADER_SIZE + 2 * (cs.length + 1) + sizeSum cs + cellSize c < PAGE_SIZE) :
    ∃ q, p.insert c.key c.payload (some c.left_child) = .ok q ∧ BuildInv pt (cs ++ [c]) q := by
  obtain ⟨hpt, hnc, hcs, harr, hdl, hdwf, hdec⟩ := hinv
  have hP : PAGE_SIZE = 4096 := rfl
  have hph : PAGE_HEADER_SIZE = 12 := rfl
  have hscc : cellSize c = 14 + c.payload.len := rfl
  have hgk : p.get_keys = some (.ok (cs.map (fun x => x.key))) := by
    unfold Page.get_keys
    rw [harr, keysFromPtrs_of_decodes hdec]
  have hfp : p.find_partition c.key = some (.ok ((cs.map (fun x => x.key)).length, none)) :=
    find_partition_all_lt hgk hall
  have hnew : DBCell.new c.key c.payload (some c.left_child) = c := DBCell.new_self c hwfc.1
  unfold Page.insert
  rw [hfp]
  dsimp only
  rw [if_neg (by simp)]
  simp only [hnew, DBCell.to_bytes_len, hcs, hnc, hdl, List.length_map]
  rw [if_neg (by omega), if_neg (by omega), if_neg (by omega)]
  set ip := PAGE_SIZE - sizeSum cs - (14 + c.payload.len) with hip
  set p3 : Page := ((⟨p.header, writeBytes p.data ip c.to_bytes,
      p.cell_pointer_array⟩ : Page).set_cells_start ip).set_num_cells (cs.length + 1) with hp3
  have hbe2 : ∀ v : Nat, (beBytes 2 v).len = 2 := fun _ => rfl
  have harr3 : p3.cell_pointer_array = offsetsFrom PAGE_SIZE cs := by
    rw [hp3]; simp [harr]
  have hwd_len : (writeBytes p.data ip c.to_bytes).len = PAGE_SIZE := by
    rw [writeBytes_len (by rw [DBCell.to_bytes_len]; omega)]
    exact hdl
  have hwd_wf : (writeBytes p.data ip c.to_bytes).WF := writeBytes_WF _ _ _
  have hmid_len : (writeBytes (writeBytes p.data ip c.to_bytes) 5 (beBytes 2 ip)).len
      = PAGE_SIZE := by
    rw [writeBytes_len (by rw [hbe2, hwd_len]; omega)]
    exact hwd_len
  have h3len : p3.data.len = PAGE_SIZE := by
    rw [hp3]
    show (writeBytes (writeBytes (writeBytes p.data ip c.to_bytes) 5 (beBytes 2 ip)) 3
      (beBytes 2 (cs.length + 1))).len = PAGE_SIZE
    rw [writeBytes_len (by rw [hbe2, hmid_len]; omega)]
    exact hmid_len
  have h3wf : p3.data.WF := by
    rw [hp3]
    show (writeBytes (writeBytes (writeBytes p.data ip c.to_bytes) 5 (beBytes 2 ip)) 3
      (beBytes 2 (cs.length + 1))).WF
    exact writeBytes_WF _ _ _
  have h3drop : ∀ k, 7 ≤ k → p3.data.drop k = (writeBytes p.data ip c.to_bytes).drop k := by
    intro k hk
    rw [hp3]
    show (writeBytes (writeBytes (writeBytes p.data ip c.to_bytes) 5 (beBytes 2 ip)) 3
      (beBytes 2 (cs.length + 1))).drop k = _
    rw [drop_writeBytes_high (writeBytes_WF _ _ _) (by rw [hmid_len]; omega)
      (by rw [hbe2]; omega)]
    rw [drop_writeBytes_high hwd_wf (by rw [hwd_len]; omega) (by rw [hbe2]; omega)]
  have hsz3 : PAGE_HEADER_SIZE + 2 * (p3.cell_pointer_array.length + 1) ≤ p3.data.len := by
    rw [harr3, offsetsFrom_length, h3len]
    omega
  obtain ⟨q, hq, hqh, hqa, hql, hqwf, hqdrop⟩ :=
    insert_finish_spec p3 cs.length ip (by rw [harr3, offsetsFrom_length]) h3wf hsz3
  rw [harr3] at hqa
  rw [harr3, offsetsFrom_length] at hqdrop
  have hstep : ∀ k, PAGE_SIZE - sizeSum cs ≤ k → q.data.drop k = p.data.drop k := by
    intro k hk
    rw [hqdrop k (by omega), h3drop k (by omega),
      drop_writeBytes_high hdwf (by omega) (by rw [DBCell.to_bytes_len]; omega)]
  have hnewdrop : q.data.drop ip = c.to_bytes.append (p.data.drop (ip + c.to_bytes.len)) := by
    rw [hqdrop ip (by omega), h3drop ip (by omega), drop_writeBytes_at c.to_bytes (by omega)]
  refine ⟨q, hq, ?_, ?_, ?_, ?_, ?_, ?_, ?_⟩
  · rw [hqh, hp3]
    simp [hpt]
  · rw [hqh, hp3]
    simp [List.length_append]
  · rw [hqh, hp3]
    simp only [Page.set_num_cells_cs, Page.set_cells_start_cs]
    rw [sizeSum_append, sizeSum_cons, sizeSum_nil]
    omega
  · rw [hqa, offsetsFrom_append, show PAGE_SIZE - sizeSum cs - cellSize c = ip by omega]
  · rw [hql, h3len]
  · exact hqwf
  · unfold DecodesAt
    rw [offsetsFrom_append]
    refine List.rel_append ?_ ?_
    · refine forall2_imp_mem hdec (fun off c2 hmem hp2 => ?_)
      have hge := offsetsFrom_ge PAGE_SIZE cs off hmem
      have hle := offsetsFrom_le PAGE_SIZE cs off hmem
      refine ⟨by rw [hql, h3len]; exact hle, ?_⟩
      rw [hstep off hge]
      exact hp2.2
    · refine List.Forall₂.cons ⟨?_, ?_⟩ List.Forall₂.nil
      · rw [hql, h3len]
        omega
      · rw [show PAGE_SIZE - sizeSum cs - cellSize c = ip by omega, hnewdrop]
        exact decode_encode c _ hwfc

theorem foldIns_build (pt : PageType) :
    ∀ (cs2 cs1 : List DBCell) (p : Page),
      BuildInv pt cs1 p →
      (∀ a ∈ cs1, ∀ b ∈ cs2, a.key < b.key) →
      (cs2.map (fun x => x.key)).Pairwise (· < ·) →
      (∀ c ∈ cs2, CellWF c) →
      PAGE_HEADER_SIZE + 2 * (cs1.length + cs2.length) + sizeSum cs1 + sizeSum cs2 <
        PAGE_SIZE →
      ∃ q, foldIns p cs2 = some q ∧ BuildInv pt (cs1 ++ cs2) q := by
  intro cs2
  induction cs2 with
  | nil =>
    intro cs1 p hinv _ _ _ _
    exact ⟨p, rfl, by rw [List.append_nil]; exact hinv⟩
  | cons c rest ih =>
    intro cs1 p hinv hlt hpair hwf hsp
    rw [List.map_cons] at hpair
    obtain ⟨hhead, htail⟩ := List.pairwise_cons.mp hpair
    have h1 : sizeSum (c :: rest) = cellSize c + sizeSum rest := sizeSum_cons c rest
    have h2 : (c :: rest).length = rest.length + 1 := rfl
    obtain ⟨q1, hq1, hinv1⟩ := insert_step c hinv
      (by
        intro k hk
        obtain ⟨a, ha, rfl⟩ := List.mem_map.mp hk
        exact hlt a ha c (List.mem_cons_self c rest))
      (hwf c (List.mem_cons_self c rest))
      (by omega)
    obtain ⟨q, hqf, hinvf⟩ := ih (cs1 ++ [c]) q1 hinv1
      (by
        intro a ha b hb
        rcases List.mem_append.mp ha with ha1 | ha2
        · exact hlt a ha1 b (List.mem_cons_of_mem c hb)
        · have hac : a = c := by simpa using ha2
          subst hac
          exact hhead b.key (List.mem_map.mpr ⟨b, hb, rfl⟩))
      htail
      (fun x hx => hwf x (List.mem_cons_of_mem c hx))
      (by
        have h3 : sizeSum (cs1 ++ [c]) = sizeSum cs1 + cellSize c := by
          rw [sizeSum_append, sizeSum_cons, sizeSum_nil]
          omega
        have h4 : (cs1 ++ [c]).length = cs1.length + 1 := by simp
        omega)
    refine ⟨q, ?_, ?_⟩
    · show foldIns p (c :: rest) = some q
      unfold foldIns
      rw [hq1]
      exact hqf
    · have hassoc : (cs1 ++ [c]) ++ rest = cs1 ++ (c :: rest) := by simp
      rwa [hassoc] at hinvf

theorem splitLoop_spec :
    ∀ (cells : List DBCell) (half i : Nat) (left right l2 r2 : Page),
      foldIns left (cells.take (half + 1 - i)) = some l2 →
      foldIns right (cells.drop (half + 1 - i)) = some r2 →
      splitLoop half i left right cells = some (.ok (l2, r2)) := by
  intro cells
  induction cells with
  | nil =>
    intro half i left right l2 r2 hl hr
    simp only [List.take_nil, List.drop_nil, foldIns] at hl hr
    cases hl
    cases hr
    rfl
  | cons c rest ih =>
    intro half i left right l2 r2 hl hr
    by_cases hc : i ≤ half
    · have hk : half + 1 - i = (half + 1 - (i + 1)) + 1 := by omega
      rw [hk, List.take_succ_cons] at hl
      rw [hk, List.drop_succ_cons] at hr
      unfold foldIns at hl
      unfold splitLoop
      rw [if_pos hc]
      cases hins : left.insert c.key c.payload (some c.left_child) with
      | crash => simp only [hins] at hl; cases hl
      | err pe e => simp only [hins] at hl; cases hl
      | ok l1 =>
        simp only [hins] at hl
        exact ih half (i + 1) l1 right l2 r2 hl hr
    · have hk : half + 1 - i = 0 := by omega
      rw [hk] at hl hr
      rw [List.take_zero] at hl
      rw [List.drop_zero] at hr
      simp only [foldIns] at hl
      cases hl
      unfold foldIns at hr
      unfold splitLoop
      rw [if_neg hc]
      cases hins : right.insert c.key c.payload (some c.left_child) with
      | crash => simp only [hins] at hr; cases hr
      | err pe e => simp only [hins] at hr; cases hr
      | ok r1 =>
        simp only [hins] at hr
        refine ih half (i + 1) left r1 left r2 ?_ ?_
        · rw [show half + 1 - (i + 1) = 0 from by omega, List.take_zero]
          rfl
        · rw [show half + 1 - (i + 1) = 0 from by omega, List.drop_zero]
          exact hr

theorem cells_results_of_decodes {p : Page} :
    ∀ {offs : List Nat} {cs : List DBCell},
      List.Forall₂ (fun off c => off ≤ p.data.len ∧
        DBCell.try_from_bytes (p.data.drop off) = .ok c) offs cs →
      offs.map (fun ptr =>
        if ptr > p.data.len then (.error .CorruptData : Except PageError DBCell)
        else match DBCell.try_from_bytes (p.data.drop ptr) with
          | .error _ => .error .CorruptData
          | .ok c => .ok c) = cs.map .ok := by
  intro offs cs h
  induction h with
  | nil => rfl
  | cons hpair htail ih =>
    simp only [List.map_cons]
    rw [if_neg (by omega), hpair.2]
    dsimp only
    rw [ih]

theorem BuildInv_cells_results {pt : PageType} {cs : List DBCell} {p : Page}
    (h : BuildInv pt cs p) : p.cells_results = cs.map .ok := by
  obtain ⟨_, _, _, harr, _, _, hdec⟩ := h
  unfold Page.cells_results
  rw [harr]
  exact cells_results_of_decodes hdec

theorem exceptOks_map_ok : ∀ cs : List DBCell, exceptOks (cs.map .ok) = cs
  | [] => rfl
  | c :: rest => by simp only [List.map_cons, exceptOks, exceptOks_map_ok rest]

theorem cells_results_CellWF {p : Page} {cs : List DBCell}
    (h : p.cells_results = cs.map .ok) : ∀ c ∈ cs, CellWF c := by
  intro c hc
  have hmem : (.ok c : Except PageError DBCell) ∈ p.cells_results := by
    rw [h]
    exact List.mem_map.mpr ⟨c, hc, rfl⟩
  unfold Page.cells_results at hmem
  obtain ⟨ptr, _, hptr⟩ := List.mem_map.mp hmem
  by_cases hgt : ptr > p.data.len
  · rw [if_pos hgt] at hptr
    cases hptr
  · rw [if_neg hgt] at hptr
    cases hdec : DBCell.try_from_bytes (p.data.drop ptr) with
    | error e => simp only [hdec] at hptr; cases hptr
    | ok c2 =>
      simp only [hdec] at hptr
      cases hptr
      exact decode_CellWF hdec

theorem BuildInv_set_rp {pt : PageType} {cs : List DBCell} {p : Page}
    (h : BuildInv pt cs p) (hsp : sizeSum cs + PAGE_HEADER_SIZE ≤ PAGE_SIZE) (v : Nat) :
    BuildInv pt cs (p.set_right_pointer v) := by
  obtain ⟨hpt, hnc, hcs, harr, hdl, hdwf, hdec⟩ := h
  have hph : PAGE_HEADER_SIZE = 12 := rfl
  have hP : PAGE_SIZE = 4096 := rfl
  refine ⟨by simpa using hpt, by simpa using hnc, by simpa using hcs,
    by simpa using harr, ?_, ?_, ?_⟩
  · rw [Page.set_right_pointer_len (by omega)]
    exact hdl
  · unfold Page.set_right_pointer
    exact writeBytes_WF _ _ _
  · refine DecodesAt_transfer hdec (by rw [Page.set_right_pointer_len (by omega)]) ?_
    intro off hmem
    have hge := offsetsFrom_ge PAGE_SIZE cs off hmem
    unfold Page.set_right_pointer
    dsimp only
    have hb4 : (beBytes 4 v).len = 4 := rfl
    exact drop_writeBytes_high hdwf (by omega) (by omega)

theorem sizeSum_take_drop (cs : List DBCell) (n : Nat) :
    sizeSum (cs.take n) + sizeSum (cs.drop n) = sizeSum cs := by
  rw [← sizeSum_append, List.take_append_drop]

/-! ## The claims -/

/-- Claim C1 (refuted; the code loses all records on re-open): after
inserting the row `(rowid 1, c1_payload)` into table `t` of a fresh database
and closing it (which flushes every page), the flushed file still holds the
record's cell — decoding the image of page 0 at offset 4080 yields exactly
that cell — yet re-opening the same file and scanning `t` yields no records,
because `Database::open` opens the backing file with `truncate(true)`. -/
theorem C1_reopen_loses_records :
    c1_scan_before = some [c1_payload] ∧
    c1_cell_on_disk = some (.ok ⟨2, 1, c1_payload, 100⟩) ∧
    c1_scan_after = some [] :=
  ⟨by decide, by decide, by decide⟩

/-- Claim C2 (refuted; a successful insert breaks global tree order): starting
from a fresh pager whose root is an empty leaf, inserting keys 2 and 5 (with
2034-byte payloads, forcing a root split) and then key 1 succeeds, but the
resulting tree fails the order check: the root's misdirected routing
(`get_next_page_pointer` decodes `data[partition..]`) sends key 1 into the
right leaf, whose keys must all exceed routing key 2. -/
theorem C2_insert_breaks_tree_order :
    c2_final.isSome = true ∧ c2_order = some false :=
  ⟨by decide, by decide⟩

/-- Claim C3 (refuted; routing misreads the cell): on an interior page with
one routing cell `(key 2, left_child 1)` and `right_pointer 2` over a zeroed
buffer, routing key 1 hits the existing-key branch, so per the claim it must
return that cell's `left_child = 1`; the code instead decodes
`self.data[partition_point..]` — the partition index used as a byte offset —
and returns 0. -/
theorem C3_route_misreads_cell :
    c3_page.cells_results.map (Except.map fun c => c.left_child) = [.ok 1] ∧
    c3_page.get_next_page_pointer 1 = some (.ok 0) :=
  ⟨by decide, by decide⟩

/-- Claim C4 (refuted; a same-key same-size update panics): `c4_page` holds
the cells `(key 3, empty payload, left_child 7)` (cell-pointer index 0, bytes
4068..4082) and `(key 5, empty payload, left_child 1)` (bytes 4082..4096);
updating index 0 with the same key 3 and an equal-length (empty) payload must
succeed per the claim, but `self.data[partition_point..].copy_from_slice`
panics because its destination runs to the end of the page. -/
theorem C4_update_same_size_panics :
    c4_page.cells_results.map (Except.map fun c => (c.key, c.payload_size, c.left_child))
      = [.ok (3, 0, 7), .ok (5, 0, 1)] ∧
    c4_page.update_same_size 0 3 Bytes.empty (some 9) = .crash :=
  ⟨by decide, by decide⟩

/-- Claim C5, counterexample: inserting a 4068-byte payload into a fresh empty
leaf gives `cells_start - s = 4096 - 4082 = 14 = 12 + 2*(0+1)`, where the
claimed strict bound says the insert is NOT PageFull; the code returns
`PageFull` (it tests `<=`) and hands back a page whose `cells_start` header
field has been overwritten with 0, so the page image is mutated. -/
theorem C5_pagefull_boundary_counterexample :
    emptyLeafZ.insert 1 (Bytes.replicate 4068 0) none
      = .err (emptyLeafZ.set_cells_start 0) .PageFull ∧
    (emptyLeafZ.set_cells_start 0).data ≠ emptyLeafZ.data :=
  ⟨by decide, by decide⟩

/-- Claim C5 (corrected): for a well-formed page and a non-duplicate insertion
of a cell of total size `s = 14 + len(payload)` with `s ≤ cells_start`,
`Page::insert` returns `PageFull` exactly when
`cells_start - s ≤ 12 + 2*(num_cells + 1)` (boundary inclusive, not the
claimed strict `<`), and the `PageFull` return carries the page with its
`cells_start` header field set to 0 rather than the unchanged page. -/
theorem C5_pagefull_amended (p : Page) (key : Nat) (payload : Bytes) (lc : Option Nat)
    (ks : List Nat)
    (hdl : p.data.len = PAGE_SIZE)
    (hnc : p.header.num_cells = p.cell_pointer_array.length)
    (hcs : p.header.cells_start ≤ PAGE_SIZE)
    (hks : p.get_keys = some (.ok ks))
    (hnd : key ∉ ks)
    (hfit : 14 + payload.len ≤ p.header.cells_start) :
    (p.header.cells_start - (14 + payload.len) ≤ 12 + 2 * (p.header.num_cells + 1) →
      p.insert key payload lc = .err (p.set_cells_start 0) .PageFull) ∧
    (12 + 2 * (p.header.num_cells + 1) < p.header.cells_start - (14 + payload.len) →
      ∃ q, p.insert key payload lc = .ok q) := by
  obtain ⟨pp, opt, hfp, hpple, hne⟩ := find_partition_no_dup hks hnd
  have hlenks : ks.length = p.cell_pointer_array.length := get_keys_length hks
  have hlen : ((DBCell.new key payload lc).to_bytes).len = 14 + payload.len := by
    rw [DBCell.to_bytes_len]
    rfl
  have hps : PAGE_SIZE = 4096 := rfl
  unfold Page.insert
  rw [hfp]
  dsimp only
  rw [if_neg hne]
  simp only [hlen]
  constructor
  · intro hle
    rw [if_neg (by omega), if_pos (by simp only [PAGE_HEADER_SIZE]; omega)]
  · intro hlt
    rw [if_neg (by omega), if_neg (by simp only [PAGE_HEADER_SIZE]; omega),
      if_neg (by omega)]
    refine insert_finish_ok _ _ _ ?_ ?_
    · simp only [Page.set_cells_start_arr, Page.set_num_cells_arr]
      omega
    · simp only [Page.set_num_cells_arr, Page.set_cells_start_arr]
      have h1 : (writeBytes p.data (p.header.cells_start - (14 + payload.len))
          (DBCell.new key payload lc).to_bytes).len = PAGE_SIZE := by
        rw [writeBytes_len (by rw [hlen, hdl]; omega)]
        exact hdl
      rw [Page.set_num_cells_len, Page.set_cells_start_len]
      · rw [h1]
        simp only [PAGE_HEADER_SIZE, hps] at *
        omega
      · rw [h1]
        omega
      · rw [Page.set_cells_start_len]
        · rw [h1]
          omega
        · rw [h1]
          omega

/-- Witness for the amended C5 theorem: the fresh empty leaf, key 1 and a
4070-byte payload satisfy every hypothesis, and the conclusion follows by the
theorem itself. -/
theorem C5_pagefull_amended_witness :
    (emptyLeafZ.data.len = PAGE_SIZE ∧
     emptyLeafZ.header.num_cells = emptyLeafZ.cell_pointer_array.length ∧
     emptyLeafZ.header.cells_start ≤ PAGE_SIZE ∧
     emptyLeafZ.get_keys = some (.ok []) ∧
     (1 : Nat) ∉ ([] : List Nat) ∧
     14 + (Bytes.replicate 4070 0).len ≤ emptyLeafZ.header.cells_start) ∧
    ((emptyLeafZ.header.cells_start - (14 + (Bytes.replicate 4070 0).len)
        ≤ 12 + 2 * (emptyLeafZ.header.num_cells + 1) →
      emptyLeafZ.insert 1 (Bytes.replicate 4070 0) none
        = .err (emptyLeafZ.set_cells_start 0) .PageFull) ∧
     (12 + 2 * (emptyLeafZ.header.num_cells + 1)
        < emptyLeafZ.header.cells_start - (14 + (Bytes.replicate 4070 0).len) →
      ∃ q, emptyLeafZ.insert 1 (Bytes.replicate 4070 0) none = .ok q)) :=
  ⟨⟨by decide, by decide, by decide, by decide, by decide, by decide⟩,
   C5_pagefull_amended emptyLeafZ 1 (Bytes.replicate 4070 0) none []
     (by decide) (by decide) (by decide) (by decide) (by decide) (by decide)⟩

/-- Claim C6 (refuted; the cell-pointer array does not round-trip): writing
pointer value 4082 at index 0 with the page's own write path
(`write_u16_in_bytes`, little-endian) and parsing the region back
(`read_from_bytes`, big-endian `u16`) yields 61967, not 4082. -/
theorem C6_ptr_array_roundtrip_fails :
    (CellPtrArray.write_u16_in_bytes (Bytes.replicate 16 0) 0 4082).map
      (CellPtrArray.read_from_bytes 1) = some (.ok [61967]) ∧ (4082 : Nat) ≠ 61967 :=
  ⟨by decide, by decide⟩

/-- Claim C7, counterexample: splitting the two-cell leaf `c7_page` sends
both cells to the left split (the loop keeps indices `i ≤ n/2 = 1`), so the
left page ends with 2 cells and the right with 0, not the claimed
`⌈2/2⌉ = 1` and `1`; the right page does inherit the right pointer (100). -/
theorem C7_split_left_half_counterexample :
    (match c7_page.split_page zeros4096 zeros4096 with
      | some (.ok (l, r)) =>
        some (l.cell_pointer_array.length, r.cell_pointer_array.length,
          r.header.right_pointer)
      | _ => none) = some (2, 0, 100) := by
  decide

/-- Claim C7 (corrected): for a page whose cells all decode, listed in
strictly ascending key order with room to rebuild, `split_page` gives the
first `n/2 + 1` cells (indices `0..n/2`, one more than the claimed `⌈n/2⌉`
when `n` is even) to the left page and the remaining cells to the right page,
the right page inheriting the original right pointer. -/
theorem C7_split_amended (p : Page) (cs : List DBCell) (uL uR : Bytes)
    (hcells : p.cells_results = cs.map .ok)
    (hsort : (cs.map (fun x => x.key)).Pairwise (· < ·))
    (hspace : PAGE_HEADER_SIZE + 2 * cs.length + sizeSum cs < PAGE_SIZE)
    (hL : uL.len = PAGE_SIZE) (hR : uR.len = PAGE_SIZE) :
    ∃ L R, p.split_page uL uR = some (.ok (L, R)) ∧
      L.cells_results = (cs.take (cs.length / 2 + 1)).map .ok ∧
      R.cells_results = (cs.drop (cs.length / 2 + 1)).map .ok ∧
      R.header.right_pointer = p.header.right_pointer := by
  have hph : PAGE_HEADER_SIZE = 12 := rfl
  have hP : PAGE_SIZE = 4096 := rfl
  have harrlen : p.cell_pointer_array.length = cs.length := by
    have h1 : p.cells_results.length = p.cell_pointer_array.length := by
      unfold Page.cells_results
      rw [List.length_map]
    rw [hcells, List.length_map] at h1
    omega
  have hwfall := cells_results_CellWF hcells
  have hpair := hsort
  set k := cs.length / 2 + 1 with hk
  have hsl : sizeSum (cs.take k) + sizeSum (cs.drop k) = sizeSum cs := sizeSum_take_drop cs k
  have hlt : (cs.take k).length ≤ cs.length := by
    rw [List.length_take]
    omega
  have hld : (cs.drop k).length ≤ cs.length := by
    rw [List.length_drop]
    omega
  have h0s : sizeSum ([] : List DBCell) = 0 := rfl
  have h0l : ([] : List DBCell).length = 0 := rfl
  obtain ⟨L, hLf, hLinv⟩ := foldIns_build p.header.page_type (cs.take k) []
    (Page.new p.header.page_type uL) (BuildInv_new _ _ hL)
    (by intro a ha; cases ha)
    (by rw [List.map_take]; exact hpair.sublist (List.take_sublist _ _))
    (fun c hc => hwfall c (List.mem_of_mem_take hc))
    (by omega)
  rw [List.nil_append] at hLinv
  obtain ⟨R0, hRf, hR0inv⟩ := foldIns_build p.header.page_type (cs.drop k) []
    (Page.new p.header.page_type uR) (BuildInv_new _ _ hR)
    (by intro a ha; cases ha)
    (by rw [List.map_drop]; exact hpair.sublist (List.drop_sublist _ _))
    (fun c hc => hwfall c (List.mem_of_mem_drop hc))
    (by omega)
  rw [List.nil_append] at hR0inv
  have hsplit : splitLoop (cs.length / 2) 0 (Page.new p.header.page_type uL)
      (Page.new p.header.page_type uR) cs = some (.ok (L, R0)) := by
    refine splitLoop_spec cs (cs.length / 2) 0 _ _ L R0 ?_ ?_
    · rw [show cs.length / 2 + 1 - 0 = k from by omega]
      exact hLf
    · rw [show cs.length / 2 + 1 - 0 = k from by omega]
      exact hRf
  refine ⟨L, R0.set_right_pointer p.header.right_pointer, ?_, ?_, ?_, ?_⟩
  · unfold Page.split_page
    dsimp only
    rw [harrlen, hcells, exceptOks_map_ok, hsplit]
  · exact BuildInv_cells_results hLinv
  · exact BuildInv_cells_results (BuildInv_set_rp hR0inv (by omega) p.header.right_pointer)
  · simp

/-- Witness for the amended C7 theorem: `c7_page` with its two decoded cells
and zeroed fresh buffers satisfies every hypothesis, and the conclusion
follows by the theorem itself. -/
theorem C7_split_amended_witness :
    (c7_page.cells_results = c7_cells.map .ok ∧
     (c7_cells.map (fun x => x.key)).Pairwise (· < ·) ∧
     PAGE_HEADER_SIZE + 2 * c7_cells.length + sizeSum c7_cells < PAGE_SIZE ∧
     zeros4096.len = PAGE_SIZE) ∧
    (∃ L R, c7_page.split_page zeros4096 zeros4096 = some (.ok (L, R)) ∧
      L.cells_results = (c7_cells.take (c7_cells.length / 2 + 1)).map .ok ∧
      R.cells_results = (c7_cells.drop (c7_cells.length / 2 + 1)).map .ok ∧
      R.header.right_pointer = c7_page.header.right_pointer) :=
  ⟨⟨by decide, by decide, by decide, by decide⟩,
   C7_split_amended c7_page c7_cells zeros4096 zeros4096 (by decide) (by decide)
     (by decide) (by decide) (by decide)⟩

/-- Claim C8 (refuted; `delete` leaves `cells_start` stale): `c8_page` holds
key 1 at offset 4080 and key 2 at offset 4064 (the lowest-addressed region);
deleting cell-pointer index 1 removes the pointer 4064 and decrements
`num_cells`, but `cells_start` stays 4064 instead of the claimed minimum
remaining offset 4080, because the code compares the index 1 against the
pointer value 4080 (`cell_ptr_pos as u16 == array[len-1]`). -/
theorem C8_delete_keeps_stale_cells_start :
    c8_page.cell_pointer_array = [4080, 4064] ∧
    (match c8_page.delete 1 with
      | .ok q => some (q.cell_pointer_array, q.header.cells_start, q.header.num_cells)
      | _ => none) = some ([4080], 4064, 1) :=
  ⟨by decide, by decide⟩

/-- Claim C9, counterexample: inserting a 4083-byte payload into a fresh empty
leaf panics — `cells_start - size` underflows `usize` (4096 - 4097) before the
PageFull check can fire — refuting the claim that insert never panics. -/
theorem C9_insert_panics_counterexample :
    emptyLeafZ.insert 1 (Bytes.replicate 4083 0) none = .crash := by
  decide

/-- Claim C9 (corrected): on a fresh empty page, every payload longer than
4068 bytes is rejected rather than stored — as `Err(PageFull)` up to 4082
bytes, where the claimed bound holds — but from 4083 bytes on the insert
panics on `usize` underflow instead of returning an error. -/
theorem C9_oversized_never_stored (key : Nat) (payload : Bytes) (h : 4068 < payload.len) :
    (payload.len ≤ 4082 →
      emptyLeafZ.insert key payload none = .err (emptyLeafZ.set_cells_start 0) .PageFull) ∧
    (4082 < payload.len → emptyLeafZ.insert key payload none = .crash) := by
  have hkeys : emptyLeafZ.get_keys = some (.ok []) := rfl
  have hfp : emptyLeafZ.find_partition key = some (.ok (0, none)) := by
    unfold Page.find_partition
    rw [hkeys]
    dsimp only
    rw [if_pos (by norm_num [partitionPoint, ppAux])]
    rfl
  have hlen : ((DBCell.new key payload none).to_bytes).len = 14 + payload.len := by
    rw [DBCell.to_bytes_len]
    rfl
  unfold Page.insert
  rw [hfp]
  dsimp only
  rw [if_neg (by simp)]
  simp only [hlen]
  have hcs : emptyLeafZ.header.cells_start = 4096 := rfl
  have hn : emptyLeafZ.header.num_cells = 0 := rfl
  rw [hcs, hn]
  constructor
  · intro hle
    rw [if_neg (by omega), if_pos (by simp [PAGE_HEADER_SIZE]; omega)]
  · intro hgt
    rw [if_pos (by omega)]

/-- Witness for the corrected C9 theorem: key 1 with a 4069-byte payload
satisfies the hypothesis, and the conclusion follows by the theorem itself. -/
theorem C9_oversized_never_stored_witness :
    (4068 < (Bytes.replicate 4069 0).len) ∧
    (((Bytes.replicate 4069 0).len ≤ 4082 →
      emptyLeafZ.insert 1 (Bytes.replicate 4069 0) none
        = .err (emptyLeafZ.set_cells_start 0) .PageFull) ∧
     (4082 < (Bytes.replicate 4069 0).len →
      emptyLeafZ.insert 1 (Bytes.replicate 4069 0) none = .crash)) :=
  ⟨by decide, C9_oversized_never_stored 1 (Bytes.replicate 4069 0) (by decide)⟩

/-- Claim C10 (confirmed): whenever the cursor's slot is within bounds but
holds no cached page (`pages_cache[page_num]` is an empty slot),
`Pager::insert` falls through the `let Some(..) = .. else` and returns `Ok`
with the pager and cursor unchanged — the record is silently dropped. -/
theorem C10_missing_slot_insert_noop (fuel : Nat) (ps : Pager) (c : Cursor) (key : Nat)
    (payload : Bytes) (lc : Option Nat)
    (h : ps.pages_cache.get? c.page_num = some none) :
    Pager.insert (fuel + 1) ps c key payload lc = some (.ok (ps, c)) := by
  unfold Pager.insert
  rw [h]

/-- Witness for the C10 theorem: a fresh pager over an empty file has 100
empty slots, so the cursor at page 5 hits a within-bounds empty slot, and the
insert is the identity on the pager and cursor. -/
theorem C10_missing_slot_insert_noop_witness :
    ((Pager.new [] 7 []).pages_cache.get? 5 = some none) ∧
    Pager.insert 1 (Pager.new [] 7 []) ⟨5, 0, []⟩ 1 Bytes.empty none
      = some (.ok ((Pager.new [] 7 []), ⟨5, 0, []⟩)) :=
  ⟨by decide, C10_missing_slot_insert_noop 0 (Pager.new [] 7 []) ⟨5, 0, []⟩ 1 Bytes.empty
    none (by decide)⟩
